import Mathlib

set_option maxRecDepth 400000
set_option maxHeartbeats 2000000

/-!
Verification of the chess rules engine and search engine of `python-chess-ai`
(`Chess/engine.py`, `Chess/chess_ai.py`, `Chess/utils/pieces.py`).

The Python classes are shallowly embedded: the mutable `GameState` object
becomes a Lean structure that every method takes and returns explicitly;
Python lists become `List`, board squares are the same two-character strings
("wp", "bR", "--", ...), and the `Dict[str, Move]` of valid moves (keyed by
`str(move_id)`, an injective image of the integer id) becomes an
insertion-ordered association list keyed by the integer id.

Python indexing `l[i]` wraps negative indices (`l[-1]` is the last element);
reads and writes that would raise `IndexError` in Python (only possible in
states that the engine cannot reach) are modelled as default reads / no-op
writes.
-/

namespace PyChess

/-- Python `l[i]` for reads: negative indices wrap, out-of-range gives `dflt`. -/
def pyNth {α : Type} (dflt : α) (l : List α) (i : Int) : α :=
  if 0 ≤ i ∧ i < (l.length : Int) then l.getD i.toNat dflt
  else if -(l.length : Int) ≤ i ∧ i < 0 then l.getD (i + l.length).toNat dflt
  else dflt

/-- Python `l[i] = v`: negative indices wrap, out-of-range is a no-op. -/
def pySetNth {α : Type} (l : List α) (i : Int) (v : α) : List α :=
  if 0 ≤ i ∧ i < (l.length : Int) then l.set i.toNat v
  else if -(l.length : Int) ≤ i ∧ i < 0 then l.set (i + l.length).toNat v
  else l

/-- The 8×8 board of piece strings (`self.board`). -/
abbrev Board := List (List String)

/-- Python `board[r][c]`. -/
def getTile (b : Board) (r c : Int) : String :=
  pyNth "--" (pyNth [] b r) c

/-- Python `board[r][c] = v`. -/
def setTile (b : Board) (r c : Int) (v : String) : Board :=
  if 0 ≤ r ∧ r < (b.length : Int) then b.set r.toNat (pySetNth (b.getD r.toNat []) c v)
  else if -(b.length : Int) ≤ r ∧ r < 0 then
    b.set (r + b.length).toNat (pySetNth (b.getD (r + b.length).toNat []) c v)
  else b

/-- Python `s[0]` of a piece string (color character). -/
def colorOf (s : String) : Char := pyNth '-' s.data 0

/-- Python `s[1]` of a piece string (kind character). -/
def kindOf (s : String) : Char := pyNth '-' s.data 1

/-- Modelled from the spec: `Chess/utils/constants.py` is not in the sources.
The spec describes the en-passant default as the sentinel pair
`(NONE, NONE)`, distinct from every board coordinate; `-1` realises it. -/
def NO_VALUE : Int := -1

/-- Modelled from the spec: `Chess/utils/constants.py` is not in the sources.
"MAX_DEPTH is a fixed configuration constant (recommend 3)." -/
def MAX_DEPTH : Nat := 3

/-- `MATERIAL_VALUES` from `Chess/utils/pieces.py` (Python dict lookup by
kind character; a key error is unreachable and modelled as 0). -/
def MATERIAL_VALUES (kind : Char) : Int :=
  if kind = 'p' then 100
  else if kind = 'R' then 500
  else if kind = 'N' then 320
  else if kind = 'B' then 330
  else if kind = 'Q' then 900
  else if kind = 'K' then 0
  else 0

/-- `CHECKMATE` from `Chess/utils/pieces.py`. -/
def CHECKMATE : Int := 100000

/-- `STALEMATE` from `Chess/utils/pieces.py`. -/
def STALEMATE : Int := 0

/-- `PIECE_SQUARE_TABLES_WHITE["PAWN"]`. -/
def tablePAWN : List (List Int) :=
  [[0, 0, 0, 0, 0, 0, 0, 0],
   [50, 50, 50, 50, 50, 50, 50, 50],
   [10, 10, 20, 30, 30, 20, 10, 10],
   [5, 5, 10, 25, 25, 10, 5, 5],
   [0, 0, 0, 20, 20, 0, 0, 0],
   [5, -5, -10, 0, 0, -10, -5, 5],
   [5, 10, 10, -20, -20, 10, 10, 5],
   [0, 0, 0, 0, 0, 0, 0, 0]]

/-- `PIECE_SQUARE_TABLES_WHITE["KNIGHT"]`. -/
def tableKNIGHT : List (List Int) :=
  [[-50, -40, -30, -30, -30, -30, -40, -50],
   [-40, -20, 0, 0, 0, 0, -20, -40],
   [-30, 0, 10, 15, 15, 10, 0, -30],
   [-30, 5, 15, 20, 20, 15, 5, -30],
   [-30, 0, 15, 20, 20, 15, 0, -30],
   [-30, 5, 10, 15, 15, 10, 5, -30],
   [-40, -20, 0, 5, 5, 0, -20, -40],
   [-50, -40, -30, -30, -30, -30, -40, -50]]

/-- `PIECE_SQUARE_TABLES_WHITE["BISHOP"]`. -/
def tableBISHOP : List (List Int) :=
  [[-20, -10, -10, -10, -10, -10, -10, -20],
   [-10, 0, 0, 0, 0, 0, 0, -10],
   [-10, 0, 5, 10, 10, 5, 0, -10],
   [-10, 5, 5, 10, 10, 5, 5, -10],
   [-10, 0, 10, 10, 10, 10, 0, -10],
   [-10, 10, 10, 10, 10, 10, 10, -10],
   [-10, 5, 0, 0, 0, 0, 5, -10],
   [-20, -10, -10, -10, -10, -10, -10, -20]]

/-- `PIECE_SQUARE_TABLES_WHITE["ROOK"]`. -/
def tableROOK : List (List Int) :=
  [[0, 0, 0, 0, 0, 0, 0, 0],
   [5, 10, 10, 10, 10, 10, 10, 5],
   [-5, 0, 0, 0, 0, 0, 0, -5],
   [-5, 0, 0, 0, 0, 0, 0, -5],
   [-5, 0, 0, 0, 0, 0, 0, -5],
   [-5, 0, 0, 0, 0, 0, 0, -5],
   [-5, 0, 0, 0, 0, 0, 0, -5],
   [0, 0, 0, 5, 5, 0, 0, 0]]

/-- `PIECE_SQUARE_TABLES_WHITE["QUEEN"]`. -/
def tableQUEEN : List (List Int) :=
  [[-20, -10, -10, -5, -5, -10, -10, -20],
   [-10, 0, 0, 0, 0, 0, 0, -10],
   [-10, 0, 5, 5, 5, 5, 0, -10],
   [-5, 0, 5, 5, 5, 5, 0, -5],
   [0, 0, 5, 5, 5, 5, 0, -5],
   [-10, 5, 5, 5, 5, 5, 0, -10],
   [-10, 0, 5, 0, 0, 0, 0, -10],
   [-20, -10, -10, -5, -5, -10, -10, -20]]

/-- `PIECE_POSITION_SCORES` from `Chess/utils/pieces.py`: white pieces use
the white tables, black pieces the row-reversed (`[::-1]`) tables; the king
is not a key (kings are skipped by the scorer). Unknown keys are modelled
as an all-zero table (a Python key error, unreachable from the scorer). -/
def PIECE_POSITION_SCORES (piece : String) : List (List Int) :=
  if piece = "wp" then tablePAWN
  else if piece = "bp" then tablePAWN.reverse
  else if piece = "wN" then tableKNIGHT
  else if piece = "bN" then tableKNIGHT.reverse
  else if piece = "wB" then tableBISHOP
  else if piece = "bB" then tableBISHOP.reverse
  else if piece = "wR" then tableROOK
  else if piece = "bR" then tableROOK.reverse
  else if piece = "wQ" then tableQUEEN
  else if piece = "bQ" then tableQUEEN.reverse
  else []

/-- `Move` from `Chess/engine.py`. -/
structure Move where
  start_row : Int
  start_col : Int
  end_row : Int
  end_col : Int
  piece_moved : String
  piece_captured : String
  is_pawn_promotion : Bool
  is_en_passant : Bool
  is_castle : Bool
deriving Repr, DecidableEq

/-- `Move.move_id` (`start_row * 1000 + start_col * 100 + end_row * 10 + end_col`). -/
def Move.move_id (m : Move) : Int :=
  m.start_row * 1000 + m.start_col * 100 + m.end_row * 10 + m.end_col

/-- `Move.__init__(start, end, board, is_en_passant, is_castle)`. -/
def Move.init (s e : Int × Int) (board : Board) (isEnPassant isCastle : Bool) : Move :=
  let pieceMoved := getTile board s.1 s.2
  let pieceCaptured := getTile board e.1 e.2
  let promo := (pieceMoved = "wp" ∧ e.1 = 0) ∨ (pieceMoved = "bp" ∧ e.1 = 7)
  { start_row := s.1
    start_col := s.2
    end_row := e.1
    end_col := e.2
    piece_moved := pieceMoved
    piece_captured := if isEnPassant then (if pieceMoved = "bp" then "wp" else "bp") else pieceCaptured
    is_pawn_promotion := decide promo
    is_en_passant := isEnPassant
    is_castle := isCastle }

/-- `CastleRights` from `Chess/engine.py`. -/
structure CastleRights where
  wks : Bool
  bks : Bool
  wqs : Bool
  bqs : Bool
deriving Repr, DecidableEq

/-- A pin or check record `(row, col, dir_row, dir_col)`. -/
abbrev PinRec := Int × Int × Int × Int

/-- The valid-move dictionary `Dict[str, Move]`, keyed by move id
(`str` of an integer is injective, so the integer key is kept),
as an insertion-ordered association list with Python dict semantics. -/
abbrev MoveDict := List (Int × Move)

/-- Python `d[k] = v`: replace in place if the key is present, else append. -/
def dictInsert (d : MoveDict) (k : Int) (v : Move) : MoveDict :=
  if d.any (fun p => p.1 = k) then d.map (fun p => if p.1 = k then (k, v) else p)
  else d ++ [(k, v)]

/-- `moves[str(move.move_id)] = move`. -/
def addMove (d : MoveDict) (m : Move) : MoveDict :=
  dictInsert d m.move_id m

/-- `GameState` from `Chess/engine.py` (the `move_functions` dict of bound
methods is realised as direct dispatch in `get_all_possible_moves`). -/
structure GameState where
  board : Board
  white_to_move : Bool
  valid_moves : MoveDict
  move_log : List Move
  white_king_location : Int × Int
  black_king_location : Int × Int
  checkmate : Bool
  stalemate : Bool
  in_check : Bool
  pins : List PinRec
  checks : List PinRec
  en_passant_possible : Int × Int
  current_castling_rights : CastleRights
  castle_rights_log : List CastleRights
deriving Repr, DecidableEq

/-- `GameState.__init__`. -/
def initialState : GameState :=
  { board :=
      [["bR", "bN", "bB", "bQ", "bK", "bB", "bN", "bR"],
       ["bp", "bp", "bp", "bp", "bp", "bp", "bp", "bp"],
       ["--", "--", "--", "--", "--", "--", "--", "--"],
       ["--", "--", "--", "--", "--", "--", "--", "--"],
       ["--", "--", "--", "--", "--", "--", "--", "--"],
       ["--", "--", "--", "--", "--", "--", "--", "--"],
       ["wp", "wp", "wp", "wp", "wp", "wp", "wp", "wp"],
       ["wR", "wN", "wB", "wQ", "wK", "wB", "wN", "wR"]]
    white_to_move := true
    valid_moves := []
    move_log := []
    white_king_location := (7, 4)
    black_king_location := (0, 4)
    checkmate := false
    stalemate := false
    in_check := false
    pins := []
    checks := []
    en_passant_possible := (NO_VALUE, NO_VALUE)
    current_castling_rights := ⟨true, true, true, true⟩
    castle_rights_log := [⟨true, true, true, true⟩] }

/-- `GameState.__update_castle_rights(move)`. -/
def update_castle_rights (cr : CastleRights) (move : Move) : CastleRights :=
  let cr :=
    if move.piece_moved = "wK" then { cr with wks := false, wqs := false }
    else if move.piece_moved = "bK" then { cr with bks := false, bqs := false }
    else if move.piece_moved = "wR" then
      if move.start_row = 7 then
        if move.start_col = 0 then { cr with wqs := false }
        else if move.start_col = 7 then { cr with wks := false }
        else cr
      else cr
    else if move.piece_moved = "bR" then
      if move.start_row = 0 then
        if move.start_col = 0 then { cr with bqs := false }
        else if move.start_col = 7 then { cr with bks := false }
        else cr
      else cr
    else cr
  if move.piece_captured = "wR" then
    if move.end_row = 7 then
      if move.end_col = 0 then { cr with wqs := false }
      else if move.end_col = 7 then { cr with wks := false }
      else cr
    else cr
  else if move.piece_captured = "bR" then
    if move.end_row = 0 then
      if move.end_col = 0 then { cr with bqs := false }
      else if move.end_col = 7 then { cr with bks := false }
      else cr
    else cr
  else cr

/-- The board rewrite of `GameState.make_move(move)`: clear the start
square, place the moved piece on the end square (a promotion places the
same-color queen instead), clear the square of a pawn captured en passant,
and shuffle the rook of a castle. -/
def makeBoard (board0 : Board) (move : Move) : Board :=
  let board := setTile board0 move.start_row move.start_col "--"
  let board := setTile board move.end_row move.end_col move.piece_moved
  -- pawn promotion
  let board :=
    if move.is_pawn_promotion then
      setTile board move.end_row move.end_col (String.mk [colorOf move.piece_moved] ++ "Q")
    else board
  -- en passant
  let board :=
    if move.is_en_passant then setTile board move.start_row move.end_col "--" else board
  -- castling: move the rook next to the king
  if move.is_castle then
    if move.end_col - move.start_col = 2 then
      let board2 := setTile board move.end_row (move.end_col - 1)
        (getTile board move.end_row (move.end_col + 1))
      setTile board2 move.end_row (move.end_col + 1) "--"
    else
      let board2 := setTile board move.end_row (move.end_col + 1)
        (getTile board move.end_row (move.end_col - 2))
      setTile board2 move.end_row (move.end_col - 2) "--"
  else board

/-- The en-passant target set by `GameState.make_move(move)`: the skipped
square of a pawn double step, else the no-value sentinel. -/
def makeEnPassant (move : Move) : Int × Int :=
  if kindOf move.piece_moved = 'p' ∧ (move.end_row - move.start_row).natAbs = 2 then
    ((move.start_row + move.end_row) / 2, move.end_col)
  else (NO_VALUE, NO_VALUE)

/-- `GameState.make_move(move)`. -/
def make_move (s : GameState) (move : Move) : GameState :=
  { s with
    board := makeBoard s.board move
    move_log := s.move_log ++ [move]
    white_to_move := !s.white_to_move
    white_king_location :=
      if move.piece_moved = "wK" then (move.end_row, move.end_col) else s.white_king_location
    black_king_location :=
      if move.piece_moved = "bK" then (move.end_row, move.end_col) else s.black_king_location
    en_passant_possible := makeEnPassant move
    current_castling_rights := update_castle_rights s.current_castling_rights move
    castle_rights_log :=
      s.castle_rights_log ++ [update_castle_rights s.current_castling_rights move]
    checkmate := false
    stalemate := false }

/-- The part of `GameState` that the move generators, the attack test and
the pin/check analyzer read from `self`: the board, the side to move, both
king locations, the en-passant target and the castling rights. The
generator methods receive it explicitly (they mutate only `self.pins`,
which is threaded separately, and the trial king relocations of
`__get_king_moves`, which are modelled as a modified copy). -/
structure Position where
  board : Board
  white_to_move : Bool
  white_king_location : Int × Int
  black_king_location : Int × Int
  en_passant_possible : Int × Int
  current_castling_rights : CastleRights
deriving Repr, DecidableEq

/-- The generator-visible part of a game state. -/
def GameState.pos (s : GameState) : Position :=
  ⟨s.board, s.white_to_move, s.white_king_location, s.black_king_location,
   s.en_passant_possible, s.current_castling_rights⟩

/-- Python `range(a, b)` as a list of `Int`. -/
def pyRange (a b : Int) : List Int :=
  (List.range (b - a).toNat).map (fun k => a + k)

/-- Python `range(a, b, -1)` as a list of `Int`. -/
def pyRangeDown (a b : Int) : List Int :=
  (List.range (a - b).toNat).map (fun k => a - k)

/-- The "no pin candidate" sentinel tuple. -/
def NONE4 : PinRec := (NO_VALUE, NO_VALUE, NO_VALUE, NO_VALUE)

/-- One sliding direction of `GameState.__check_for_pins_and_checks`: walk
the remaining distances `is`, tracking the pin candidate, check flag and the
accumulated pin/check lists; returning early models the Python `break`s.
An allied king on the ray is transparent (falls through both branches),
and an out-of-range square is skipped rather than ending the ray (the
source has no `else: break` here). -/
def pinRay (board : Board) (ally enemy : Char) (sr sc : Int) (j : Nat) (d : Int × Int) :
    List Int → PinRec → Bool × List PinRec × List PinRec → Bool × List PinRec × List PinRec
  | [], _, acc => acc
  | i :: rest, possiblePin, (ic, ps, cs) =>
    let er := sr + d.1 * i
    let ec := sc + d.2 * i
    if 0 ≤ er ∧ er < (board.length : Int) ∧ 0 ≤ ec ∧ ec < ((pyNth [] board 0).length : Int) then
      let piece := getTile board er ec
      if colorOf piece = ally ∧ kindOf piece ≠ 'K' then
        if possiblePin = NONE4 then
          pinRay board ally enemy sr sc j d rest (er, ec, d.1, d.2) (ic, ps, cs)
        else (ic, ps, cs)
      else if colorOf piece = enemy then
        let t := kindOf piece
        if (j ≤ 3 ∧ t = 'R') ∨ (4 ≤ j ∧ j ≤ 7 ∧ t = 'B') ∨
            (i = 1 ∧ t = 'p' ∧ ((enemy = 'w' ∧ 6 ≤ j ∧ j ≤ 7) ∨ (enemy = 'b' ∧ 4 ≤ j ∧ j ≤ 5))) ∨
            t = 'Q' ∨ (i = 1 ∧ t = 'K') then
          if possiblePin = NONE4 then
            -- the source records the check and keeps scanning (its `break` is commented out)
            pinRay board ally enemy sr sc j d rest possiblePin (true, ps, cs ++ [(er, ec, d.1, d.2)])
          else (ic, ps ++ [possiblePin], cs)
        else (ic, ps, cs)
      else pinRay board ally enemy sr sc j d rest possiblePin (ic, ps, cs)
    else pinRay board ally enemy sr sc j d rest possiblePin (ic, ps, cs)

/-- `GameState.__check_for_pins_and_checks()` (a pure reader of the state). -/
def check_for_pins_and_checks (s : Position) : Bool × List PinRec × List PinRec :=
  let ally : Char := if s.white_to_move then 'w' else 'b'
  let enemy : Char := if s.white_to_move then 'b' else 'w'
  let sr : Int := if s.white_to_move then s.white_king_location.1 else s.black_king_location.1
  let sc : Int := if s.white_to_move then s.white_king_location.2 else s.black_king_location.2
  let directions : List (Int × Int) :=
    [(-1, 0), (0, -1), (1, 0), (0, 1), (-1, -1), (-1, 1), (1, -1), (1, 1)]
  let acc :=
    directions.enum.foldl
      (fun acc jd =>
        pinRay s.board ally enemy sr sc jd.1 jd.2 (pyRange 1 s.board.length) NONE4 acc)
      ((false, [], []) : Bool × List PinRec × List PinRec)
  let knightMoves : List (Int × Int) :=
    [(-2, -1), (-2, 1), (-1, -2), (-1, 2), (1, -2), (1, 2), (2, -1), (2, 1)]
  knightMoves.foldl
    (fun acc mv =>
      let er := sr + mv.1
      let ec := sc + mv.2
      if 0 ≤ er ∧ er < (s.board.length : Int) ∧ 0 ≤ ec ∧ ec < ((pyNth [] s.board 0).length : Int) then
        let piece := getTile s.board er ec
        if colorOf piece = enemy ∧ kindOf piece = 'N' then
          (true, acc.2.1, acc.2.2 ++ [(er, ec, mv.1, mv.2)])
        else acc
      else acc)
    acc

/-- The reverse scan of `self.pins` used by the piece generators: the last
entry whose square is `(row, col)`. -/
def findPinFromEnd (pins : List PinRec) (row col : Int) : Option PinRec :=
  pins.reverse.find? (fun p => p.1 = row ∧ p.2.1 = col)

/-- Python `list.remove(v)`: drop the first element equal to `v`. -/
def pyRemoveFirst : List PinRec → PinRec → List PinRec
  | [], _ => []
  | p :: rest, v => if p = v then rest else p :: pyRemoveFirst rest v

/-- `GameState.__get_moves_from_tiles(row, col, moves, tiles)`
(threading `self.pins` explicitly). -/
def get_moves_from_tiles (s : Position) (pins : List PinRec) (row col : Int)
    (moves : MoveDict) (tiles : List (Int × Int)) : List PinRec × MoveDict :=
  let (piecePinned, pins) :=
    match findPinFromEnd pins row col with
    | some v => (true, pyRemoveFirst pins v)
    | none => (false, pins)
  let enemy : Char := if s.white_to_move then 'b' else 'w'
  let moves := tiles.foldl
    (fun ms t =>
      if 0 ≤ t.1 ∧ t.1 < (s.board.length : Int) ∧ 0 ≤ t.2 ∧ t.2 < ((pyNth [] s.board 0).length : Int) then
        if ¬piecePinned then
          if getTile s.board t.1 t.2 = "--" then
            addMove ms (Move.init (row, col) t s.board false false)
          else if colorOf (getTile s.board t.1 t.2) = enemy then
            addMove ms (Move.init (row, col) t s.board false false)
          else ms
        else ms
      else ms)
    moves
  (pins, moves)

/-- One ray of `GameState.__get_moves_from_directions`; returning early
models the `break`s (a blocked pin direction only skips the square). -/
def dirRay (board : Board) (piecePinned : Bool) (pinDirection : Int × Int) (enemy : Char)
    (row col : Int) (d : Int × Int) : List Int → MoveDict → MoveDict
  | [], ms => ms
  | i :: rest, ms =>
    let er := row + d.1 * i
    let ec := col + d.2 * i
    if 0 ≤ er ∧ er < (board.length : Int) ∧ 0 ≤ ec ∧ ec < ((pyNth [] board 0).length : Int) then
      if ¬piecePinned ∨ pinDirection = d ∨ pinDirection = (-d.1, -d.2) then
        let piece := getTile board er ec
        if piece = "--" then
          dirRay board piecePinned pinDirection enemy row col d rest
            (addMove ms (Move.init (row, col) (er, ec) board false false))
        else if colorOf piece = enemy then
          addMove ms (Move.init (row, col) (er, ec) board false false)
        else ms
      else dirRay board piecePinned pinDirection enemy row col d rest ms
    else ms

/-- `GameState.__get_moves_from_directions(row, col, moves, directions)`. -/
def get_moves_from_directions (s : Position) (pins : List PinRec) (row col : Int)
    (moves : MoveDict) (directions : List (Int × Int)) : List PinRec × MoveDict :=
  let scan := findPinFromEnd pins row col
  let (piecePinned, pinDirection) :=
    match scan with
    | some v => (true, (v.2.2.1, v.2.2.2))
    | none => (false, ((NO_VALUE : Int), (NO_VALUE : Int)))
  -- a queen keeps its pin entry during its rook phase; only a rook removes it
  let pins :=
    match scan with
    | some v => if kindOf (getTile s.board row col) = 'R' then pyRemoveFirst pins v else pins
    | none => pins
  let enemy : Char := if s.white_to_move then 'b' else 'w'
  let len : Int := max (s.board.length : Int) ((pyNth [] s.board 0).length : Int)
  let moves := directions.foldl
    (fun ms d => dirRay s.board piecePinned pinDirection enemy row col d (pyRange 1 len) ms)
    moves
  (pins, moves)

/-- `GameState.__get_rook_moves`. -/
def get_rook_moves (s : Position) (pins : List PinRec) (row col : Int)
    (moves : MoveDict) : List PinRec × MoveDict :=
  get_moves_from_directions s pins row col moves [(-1, 0), (1, 0), (0, -1), (0, 1)]

/-- `GameState.__get_knight_moves`. -/
def get_knight_moves (s : Position) (pins : List PinRec) (row col : Int)
    (moves : MoveDict) : List PinRec × MoveDict :=
  get_moves_from_tiles s pins row col moves
    [(row - 1, col + 2), (row - 2, col + 1), (row - 2, col - 1), (row - 1, col - 2),
     (row + 1, col - 2), (row + 2, col - 1), (row + 2, col + 1), (row + 1, col + 2)]

/-- `GameState.__get_bishop_moves`. -/
def get_bishop_moves (s : Position) (pins : List PinRec) (row col : Int)
    (moves : MoveDict) : List PinRec × MoveDict :=
  get_moves_from_directions s pins row col moves [(-1, 1), (-1, -1), (1, -1), (1, 1)]

/-- `GameState.__get_queen_moves`. -/
def get_queen_moves (s : Position) (pins : List PinRec) (row col : Int)
    (moves : MoveDict) : List PinRec × MoveDict :=
  let (pins, moves) := get_rook_moves s pins row col moves
  get_bishop_moves s pins row col moves

/-- `GameState.__get_pawn_moves(row, col, moves)`. The dead ternary
assignments of `direction` / `start_row` / `enemy` in the source are
overwritten by the `if/else` that follows; only the latter is modelled. -/
def get_pawn_moves (s : Position) (pins : List PinRec) (row col : Int)
    (moves : MoveDict) : List PinRec × MoveDict :=
  let scan := findPinFromEnd pins row col
  let (piecePinned, pinDirection) :=
    match scan with
    | some v => (true, (v.2.2.1, v.2.2.2))
    | none => (false, ((NO_VALUE : Int), (NO_VALUE : Int)))
  let pins :=
    match scan with
    | some v => pyRemoveFirst pins v
    | none => pins
  let direction : Int := if s.white_to_move then -1 else 1
  let startRow : Int := if s.white_to_move then 6 else 1
  let enemy : Char := if s.white_to_move then 'b' else 'w'
  let kingRow : Int := if s.white_to_move then s.white_king_location.1 else s.black_king_location.1
  let kingCol : Int := if s.white_to_move then s.white_king_location.2 else s.black_king_location.2
  let moves :=
    if getTile s.board (row + direction) col = "--" then
      if ¬piecePinned ∨ pinDirection = (direction, 0) then
        let moves := addMove moves (Move.init (row, col) (row + direction, col) s.board false false)
        if row = startRow ∧ getTile s.board (row + 2 * direction) col = "--" then
          addMove moves (Move.init (row, col) (row + 2 * direction, col) s.board false false)
        else moves
      else moves
    else moves
  ([-1, 1] : List Int).foldl
    (fun (acc : List PinRec × MoveDict) lr =>
      let (pins, moves) := acc
      if ¬piecePinned ∨ pinDirection = (direction, lr) then
        if 0 ≤ col + lr ∧ col + lr < (s.board.length : Int) ∧
            colorOf (getTile s.board (row + direction) (col + lr)) = enemy then
          (pins, addMove moves (Move.init (row, col) (row + direction, col + lr) s.board false false))
        else if (row + direction, col + lr) = s.en_passant_possible then
          let rangeOffset : Int := if lr > 0 then 1 else 0
          let (attackingPiece, blockingPiece) :=
            if kingRow = row then
              let (insideRange, outsideRange) :=
                if kingCol < col then
                  (pyRange (kingCol + 1) (col - 1 + rangeOffset),
                   pyRange (col + 1 + rangeOffset) (s.board.length : Int))
                else
                  (pyRangeDown (kingCol - 1) (col + rangeOffset),
                   pyRangeDown (col - 2 + rangeOffset) (-1))
              let blocking1 := insideRange.any (fun c => getTile s.board row c ≠ "--")
              let attacking := outsideRange.any (fun c =>
                colorOf (getTile s.board row c) = enemy ∧
                  (kindOf (getTile s.board row c) = 'R' ∨ kindOf (getTile s.board row c) = 'Q'))
              let blocking2 := outsideRange.any (fun c =>
                ¬(colorOf (getTile s.board row c) = enemy ∧
                    (kindOf (getTile s.board row c) = 'R' ∨ kindOf (getTile s.board row c) = 'Q')) ∧
                  getTile s.board row c ≠ "--")
              (attacking, blocking1 ∨ blocking2)
            else (false, false)
          if ¬attackingPiece ∨ blockingPiece then
            (pins, addMove moves (Move.init (row, col) (row + direction, col + lr) s.board true false))
          else (pins, moves)
        else (pins, moves)
      else (pins, moves))
    (pins, moves)

/-- `GameState.__get_king_moves(row, col, moves)`. The source writes the
trial square into the king-location field, runs the analyzer, and restores
the location; the trial state is passed to the analyzer directly. -/
def get_king_moves (s : Position) (row col : Int) (moves : MoveDict) : MoveDict :=
  let tiles : List (Int × Int) :=
    [(row, col + 1), (row - 1, col + 1), (row - 1, col), (row - 1, col - 1),
     (row, col - 1), (row + 1, col - 1), (row + 1, col), (row + 1, col + 1)]
  let ally : Char := if s.white_to_move then 'w' else 'b'
  tiles.foldl
    (fun ms t =>
      if 0 ≤ t.1 ∧ t.1 < (s.board.length : Int) ∧ 0 ≤ t.2 ∧ t.2 < ((pyNth [] s.board 0).length : Int) then
        if colorOf (getTile s.board t.1 t.2) ≠ ally then
          let trial :=
            if ally = 'w' then { s with white_king_location := t }
            else { s with black_king_location := t }
          let res := check_for_pins_and_checks trial
          if ¬res.1 then addMove ms (Move.init (row, col) t s.board false false) else ms
        else ms
      else ms)
    moves

/-- `GameState.__get_all_possible_moves()` (threading `self.pins`). -/
def get_all_possible_moves (s : Position) (pins : List PinRec) : List PinRec × MoveDict :=
  (pyRange 0 s.board.length).foldl
    (fun (acc : List PinRec × MoveDict) row =>
      (pyRange 0 ((pyNth [] s.board row).length : Int)).foldl
        (fun (acc : List PinRec × MoveDict) col =>
          let (pins, moves) := acc
          let turn := colorOf (getTile s.board row col)
          if (turn = 'w' ∧ s.white_to_move) ∨ (turn = 'b' ∧ ¬s.white_to_move) then
            let piece := kindOf (getTile s.board row col)
            if piece = 'p' then get_pawn_moves s pins row col moves
            else if piece = 'R' then get_rook_moves s pins row col moves
            else if piece = 'N' then get_knight_moves s pins row col moves
            else if piece = 'B' then get_bishop_moves s pins row col moves
            else if piece = 'Q' then get_queen_moves s pins row col moves
            else if piece = 'K' then (pins, get_king_moves s row col moves)
            else acc
          else acc)
        acc)
    (pins, [])

/-- `GameState.tile_under_attack(row, col)`: flip the side to move, generate
the opponent's pseudo-moves, and look for one landing on the tile. -/
def tile_under_attack (s : Position) (pins : List PinRec) (row col : Int) :
    List PinRec × Bool :=
  let flipped := { s with white_to_move := !s.white_to_move }
  let (pins, oms) := get_all_possible_moves flipped pins
  (pins, oms.any (fun p => p.2.end_row = row ∧ p.2.end_col = col))

/-- `GameState.__get_king_side_castle_moves(row, col, moves)`. -/
def get_king_side_castle_moves (s : Position) (pins : List PinRec) (row col : Int)
    (moves : MoveDict) : List PinRec × MoveDict :=
  if getTile s.board row (col + 1) = "--" ∧ getTile s.board row (col + 2) = "--" then
    let (pins, a1) := tile_under_attack s pins row (col + 1)
    if ¬a1 then
      let (pins, a2) := tile_under_attack s pins row (col + 2)
      if ¬a2 then
        (pins, addMove moves (Move.init (row, col) (row, col + 2) s.board false true))
      else (pins, moves)
    else (pins, moves)
  else (pins, moves)

/-- `GameState.__get_queen_side_castle_moves(row, col, moves)`. -/
def get_queen_side_castle_moves (s : Position) (pins : List PinRec) (row col : Int)
    (moves : MoveDict) : List PinRec × MoveDict :=
  if getTile s.board row (col - 1) = "--" ∧ getTile s.board row (col - 2) = "--" ∧
      getTile s.board row (col - 3) = "--" then
    let (pins, a1) := tile_under_attack s pins row (col - 1)
    if ¬a1 then
      let (pins, a2) := tile_under_attack s pins row (col - 2)
      if ¬a2 then
        (pins, addMove moves (Move.init (row, col) (row, col - 2) s.board false true))
      else (pins, moves)
    else (pins, moves)
  else (pins, moves)

/-- `GameState.__get_castle_moves(row, col, moves)`. -/
def get_castle_moves (s : Position) (pins : List PinRec) (row col : Int)
    (moves : MoveDict) : List PinRec × MoveDict :=
  let (pins, att) := tile_under_attack s pins row col
  if att then (pins, moves)
  else
    let (pins, moves) :=
      if (s.white_to_move ∧ s.current_castling_rights.wks) ∨
          (¬s.white_to_move ∧ s.current_castling_rights.bks) then
        get_king_side_castle_moves s pins row col moves
      else (pins, moves)
    if (s.white_to_move ∧ s.current_castling_rights.wqs) ∨
        (¬s.white_to_move ∧ s.current_castling_rights.bqs) then
      get_queen_side_castle_moves s pins row col moves
    else (pins, moves)

/-- The blocking-square walk of `generate_valid_moves` for a single check:
collect ray squares from the king towards the checker, stopping once the
checker's square is reached. -/
def buildValidTiles (kingRow kingCol checkRow checkCol d2 d3 : Int) :
    List Int → List (Int × Int)
  | [] => []
  | i :: rest =>
    let vr := kingRow + d2 * i
    let vc := kingCol + d3 * i
    if vr = checkRow ∧ vc = checkCol then [(vr, vc)]
    else (vr, vc) :: buildValidTiles kingRow kingCol checkRow checkCol d2 d3 rest

/-- The outcome of one legal-move generation pass over a `Position`:
the analyzer results (`in_check`, the fresh `pins0`, `checks`), the pin
list left after the generators consumed their entries, and the moves. -/
structure GenResult where
  in_check : Bool
  pins0 : List PinRec
  checks : List PinRec
  pins : List PinRec
  moves : MoveDict
deriving Repr, DecidableEq

/-- The position-determined part of `GameState.generate_valid_moves()`:
run the pin/check analyzer, generate (single check: generate everything
and keep only king moves and moves landing on a blocking square; double
check: king moves only; otherwise: all pseudo-legal moves), then append
the castle moves. -/
def generate_moves_pos (p : Position) : GenResult :=
  let res := check_for_pins_and_checks p
  let inCheck := res.1
  let pins0 := res.2.1
  let checks := res.2.2
  let kingRow : Int := if p.white_to_move then p.white_king_location.1 else p.black_king_location.1
  let kingCol : Int := if p.white_to_move then p.white_king_location.2 else p.black_king_location.2
  let pm : List PinRec × MoveDict :=
    if inCheck then
      if checks.length = 1 then
        let am := get_all_possible_moves p pins0
        let chk := checks.headD NONE4
        let checkRow := chk.1
        let checkCol := chk.2.1
        let pieceChecking := getTile p.board checkRow checkCol
        let validTiles :=
          if kindOf pieceChecking = 'N' then [(checkRow, checkCol)]
          else buildValidTiles kingRow kingCol checkRow checkCol chk.2.2.1 chk.2.2.2
            (pyRange 1 p.board.length)
        (am.1, am.2.filter
          (fun q => kindOf q.2.piece_moved = 'K' ∨ (q.2.end_row, q.2.end_col) ∈ validTiles))
      else (pins0, get_king_moves p kingRow kingCol [])
    else get_all_possible_moves p pins0
  let pmc : List PinRec × MoveDict :=
    if p.white_to_move then
      get_castle_moves p pm.1 p.white_king_location.1 p.white_king_location.2 pm.2
    else
      get_castle_moves p pm.1 p.black_king_location.1 p.black_king_location.2 pm.2
  ⟨inCheck, pins0, checks, pmc.1, pmc.2⟩

/-- `GameState.generate_valid_moves()`: returns the updated state together
with the move dictionary. The state mutation sets `in_check`, `pins`,
`checks`, `checkmate`, `stalemate` and the cached `valid_moves`; the
en-passant target and castling rights saved into locals at entry are
restored unchanged at the end (nothing in the pass rewrites them, so the
fields keep their entry values). An empty move set turns on `checkmate`
(in check) or `stalemate` (otherwise), leaving the other flag as it was;
a non-empty move set clears both flags. -/
def generate_valid_moves (s : GameState) : GameState × MoveDict :=
  let r := generate_moves_pos s.pos
  let checkmate := if r.moves.length = 0 then (if r.in_check then true else s.checkmate) else false
  let stalemate := if r.moves.length = 0 then (if r.in_check then s.stalemate else true) else false
  ({ s with
      in_check := r.in_check
      pins := r.pins
      checks := r.checks
      checkmate := checkmate
      stalemate := stalemate
      valid_moves := r.moves }, r.moves)

/-- The board restoration `undo_move` performs before its embedded
`generate_valid_moves()` call: put the moved piece back, put the captured
piece on the end square, and for an en-passant capture empty the end
square and put the captured pawn back beside the start square. -/
def undoBoard1 (b : Board) (move : Move) : Board :=
  let board := setTile b move.start_row move.start_col move.piece_moved
  let board := setTile board move.end_row move.end_col move.piece_captured
  if move.is_en_passant then
    setTile (setTile board move.end_row move.end_col "--")
      move.start_row move.end_col move.piece_captured
  else board

/-- The rook un-shuffle `undo_move` performs for a castle after restoring
the castling rights. -/
def undoBoard2 (b : Board) (move : Move) : Board :=
  if move.is_castle then
    if move.end_col - move.start_col = 2 then
      setTile (setTile b move.end_row (move.end_col + 1)
          (getTile b move.end_row (move.end_col - 1)))
        move.end_row (move.end_col - 1) "--"
    else
      setTile (setTile b move.end_row (move.end_col - 2)
          (getTile b move.end_row (move.end_col + 1)))
        move.end_row (move.end_col + 1) "--"
  else b

/-- The en-passant target after `undo_move`: restored to the landing
square of an undone en-passant capture, cleared after an undone double
step, otherwise left alone. -/
def undoEnPassant (move : Move) (ep : Int × Int) : Int × Int :=
  let ep := if move.is_en_passant then (move.end_row, move.end_col) else ep
  if kindOf move.piece_moved = 'p' ∧ (move.end_row - move.start_row).natAbs = 2 then
    ((NO_VALUE : Int), (NO_VALUE : Int))
  else ep

/-- `GameState.undo_move()`: pop the last move, restore the board, side,
king location and en-passant target, run `generate_valid_moves()` (the
source calls it here; it rewrites only the analyzer fields and the cached
moves), pop the castling-rights log and restore its new last entry (the
source indexes `[-1]`, which would raise on an empty log), un-shuffle the
rook of a castle, and clear both mate flags. With an empty move log the
call only prints "No moves to undo!" and returns. -/
def undo_move (s : GameState) : GameState :=
  match s.move_log.getLast? with
  | none => s
  | some move =>
    let s1 := { s with
      move_log := s.move_log.dropLast
      board := undoBoard1 s.board move
      white_to_move := !s.white_to_move
      white_king_location :=
        if move.piece_moved = "wK" then (move.start_row, move.start_col)
        else s.white_king_location
      black_king_location :=
        if move.piece_moved = "bK" then (move.start_row, move.start_col)
        else s.black_king_location
      en_passant_possible := undoEnPassant move s.en_passant_possible }
    let s2 := (generate_valid_moves s1).1
    let s3 := { s2 with
      castle_rights_log := s2.castle_rights_log.dropLast
      current_castling_rights :=
        (s2.castle_rights_log.dropLast).getLast?.getD ⟨true, true, true, true⟩ }
    { s3 with
      board := undoBoard2 s3.board move
      checkmate := false
      stalemate := false }

/-! ## `Chess/chess_ai.py` -/

/-- `ChessAI.score_material()`. -/
def score_material (s : GameState) : Int :=
  let ally : Char := if s.white_to_move then 'w' else 'b'
  let enemy : Char := if s.white_to_move then 'b' else 'w'
  s.board.foldl
    (fun sc row =>
      row.foldl
        (fun sc tile =>
          if colorOf tile = ally then sc + MATERIAL_VALUES (kindOf tile)
          else if colorOf tile = enemy then sc - MATERIAL_VALUES (kindOf tile)
          else sc)
        sc)
    0

/-- `ChessAI.score_material_piece_table()`. -/
def score_material_piece_table (s : GameState) : Int :=
  (pyRange 0 s.board.length).foldl
    (fun total row =>
      (pyRange 0 ((pyNth [] s.board 0).length : Int)).foldl
        (fun total col =>
          let piece := getTile s.board row col
          if piece ≠ "--" then
            let pieceScore : Int :=
              if kindOf piece ≠ 'K' then
                pyNth 0 (pyNth [] (PIECE_POSITION_SCORES piece) row) col
              else 0
            if colorOf piece = 'w' then total + (MATERIAL_VALUES (kindOf piece) + pieceScore)
            else if colorOf piece = 'b' then total - (MATERIAL_VALUES (kindOf piece) + pieceScore)
            else total
          else total)
        total)
    0

/-- `ChessAI.score_board()`. -/
def score_board (s : GameState) : Int :=
  if s.checkmate then
    if s.white_to_move then -CHECKMATE else CHECKMATE
  else if s.stalemate then STALEMATE
  else score_material_piece_table s

mutual

/-- `MinimaxChessAI.find_move_minimax(valid_moves, white_to_move, depth)`,
threading the mutated `self.game_state` and `self.best_moves`, with a fuel
parameter: the source recursion decrements `depth` below zero and stops
only on positions without moves, so it need not terminate (`none` models a
run longer than the fuel). At `depth <= 0` the source calls
`self.score_board()` and discards the result (a pure read, hence a no-op),
then falls through to the move loop. -/
def find_move_minimax :
    Nat → GameState → List Move → MoveDict → Bool → Int →
      Option (GameState × List Move × Int)
  | 0, _, _, _, _, _ => none
  | Nat.succ fuel, gs, best, validMoves, whiteToMove, depth =>
    if whiteToMove then minimax_loop_white fuel validMoves gs best (-CHECKMATE) depth
    else minimax_loop_black fuel validMoves gs best CHECKMATE depth
termination_by fuel _ _ _ _ _ => (fuel, 0)

/-- The `white_to_move` loop body of `find_move_minimax`. -/
def minimax_loop_white :
    Nat → MoveDict → GameState → List Move → Int → Int →
      Option (GameState × List Move × Int)
  | _, [], gs, best, maxScore, _ => some (gs, best, maxScore)
  | fuel, (_, m) :: rest, gs, best, maxScore, depth =>
    let gs := make_move gs m
    let gm := generate_valid_moves gs
    match find_move_minimax fuel gm.1 best gm.2 false (depth - 1) with
    | none => none
    | some (gs, best, score) =>
      let best :=
        if score > maxScore then (if depth = (MAX_DEPTH : Int) then [m] else best)
        else if score = maxScore then (if depth = (MAX_DEPTH : Int) then best ++ [m] else best)
        else best
      let maxScore := if score > maxScore then score else maxScore
      let gs := undo_move gs
      minimax_loop_white fuel rest gs best maxScore depth
termination_by fuel ms _ _ _ _ => (fuel, ms.length + 1)

/-- The minimizing loop body of `find_move_minimax`. -/
def minimax_loop_black :
    Nat → MoveDict → GameState → List Move → Int → Int →
      Option (GameState × List Move × Int)
  | _, [], gs, best, minScore, _ => some (gs, best, minScore)
  | fuel, (_, m) :: rest, gs, best, minScore, depth =>
    let gs := make_move gs m
    let gm := generate_valid_moves gs
    match find_move_minimax fuel gm.1 best gm.2 true (depth - 1) with
    | none => none
    | some (gs, best, score) =>
      let best :=
        if score < minScore then (if depth = (MAX_DEPTH : Int) then [m] else best)
        else if score = minScore then (if depth = (MAX_DEPTH : Int) then best ++ [m] else best)
        else best
      let minScore := if score < minScore then score else minScore
      let gs := undo_move gs
      minimax_loop_black fuel rest gs best minScore depth
termination_by fuel ms _ _ _ _ => (fuel, ms.length + 1)

end

mutual

/-- `NegamaxChessAI.find_move_negamax(valid_moves, white_to_move, depth)`:
the search depth is a natural number (the source stops at `depth <= 0` and
is only called with non-negative depths). -/
def find_move_negamax :
    GameState → List Move → MoveDict → Bool → Nat → GameState × List Move × Int
  | gs, best, _, whiteToMove, 0 =>
    let turnMultiplier : Int := if whiteToMove then 1 else -1
    (gs, best, turnMultiplier * score_board gs)
  | gs, best, validMoves, whiteToMove, Nat.succ d =>
    negamax_loop validMoves gs best (-CHECKMATE) whiteToMove d
termination_by _ _ _ _ d => (d, 0)

/-- The move loop of `find_move_negamax` (`d + 1` is the depth at the node). -/
def negamax_loop :
    MoveDict → GameState → List Move → Int → Bool → Nat → GameState × List Move × Int
  | [], gs, best, maxScore, _, _ => (gs, best, maxScore)
  | (_, m) :: rest, gs, best, maxScore, whiteToMove, d =>
    let gs := make_move gs m
    let gm := generate_valid_moves gs
    let r := find_move_negamax gm.1 best gm.2 (!whiteToMove) d
    let gs := r.1
    let best := r.2.1
    let score := -r.2.2
    let best :=
      if score > maxScore then (if (d : Int) + 1 = (MAX_DEPTH : Int) then [m] else best)
      else if score = maxScore then
        (if (d : Int) + 1 = (MAX_DEPTH : Int) then best ++ [m] else best)
      else best
    let maxScore := if score > maxScore then score else maxScore
    let gs := undo_move gs
    negamax_loop rest gs best maxScore whiteToMove d
termination_by ms _ _ _ _ d => (d, ms.length + 1)

end

mutual

/-- `NegamaxAlphaBetaChessAI.find_move_negamax_alpha_beta(valid_moves,
alpha, beta, white_to_move, depth)`. -/
def find_move_negamax_alpha_beta :
    GameState → List Move → MoveDict → Int → Int → Bool → Nat →
      GameState × List Move × Int
  | gs, best, _, _, _, whiteToMove, 0 =>
    let turnMultiplier : Int := if whiteToMove then 1 else -1
    (gs, best, turnMultiplier * score_board gs)
  | gs, best, validMoves, alpha, beta, whiteToMove, Nat.succ d =>
    negamax_ab_loop validMoves gs best (-CHECKMATE) alpha beta whiteToMove d
termination_by _ _ _ _ _ _ d => (d, 0)

/-- The move loop of `find_move_negamax_alpha_beta`; the early return
models the `break` on `alpha >= beta`. -/
def negamax_ab_loop :
    MoveDict → GameState → List Move → Int → Int → Int → Bool → Nat →
      GameState × List Move × Int
  | [], gs, best, maxScore, _, _, _, _ => (gs, best, maxScore)
  | (_, m) :: rest, gs, best, maxScore, alpha, beta, whiteToMove, d =>
    let gs := make_move gs m
    let gm := generate_valid_moves gs
    let r := find_move_negamax_alpha_beta gm.1 best gm.2 (-beta) (-alpha) (!whiteToMove) d
    let gs := r.1
    let best := r.2.1
    let score := -r.2.2
    let best :=
      if score > maxScore then (if (d : Int) + 1 = (MAX_DEPTH : Int) then [m] else best)
      else if score = maxScore then
        (if (d : Int) + 1 = (MAX_DEPTH : Int) then best ++ [m] else best)
      else best
    let maxScore := if score > maxScore then score else maxScore
    let gs := undo_move gs
    let alpha := if maxScore > alpha then maxScore else alpha
    if alpha ≥ beta then (gs, best, maxScore)
    else negamax_ab_loop rest gs best maxScore alpha beta whiteToMove d
termination_by ms _ _ _ _ _ _ d => (d, ms.length + 1)

end

/-- The states the engine itself can produce: starting from
`GameState.__init__()`, call `generate_valid_moves`, `make_move` on a move
of the generated dictionary, or `undo_move` (the interface of §6 of the
spec, as driven by the host loop and the search strategies). -/
inductive Reachable : GameState → Prop
  | init : Reachable initialState
  | gen {s : GameState} : Reachable s → Reachable (generate_valid_moves s).1
  | mk {s : GameState} {k : Int} {m : Move} : Reachable s →
      (k, m) ∈ (generate_valid_moves s).2 →
      Reachable (make_move (generate_valid_moves s).1 m)
  | undo {s : GameState} : Reachable s → Reachable (undo_move s)

/-! ## Frame lemmas for `generate_valid_moves` -/

/-- `generate_valid_moves` leaves the generator-visible fields untouched. -/
theorem pos_generate_valid_moves (s : GameState) :
    ((generate_valid_moves s).1).pos = s.pos := rfl

/-- `generate_valid_moves` leaves the move log untouched. -/
theorem move_log_generate_valid_moves (s : GameState) :
    ((generate_valid_moves s).1).move_log = s.move_log := rfl

/-- `generate_valid_moves` leaves the castling-rights log untouched. -/
theorem castle_rights_log_generate_valid_moves (s : GameState) :
    ((generate_valid_moves s).1).castle_rights_log = s.castle_rights_log := rfl

/-- The moves returned by `generate_valid_moves` depend only on the
generator-visible part of the state. -/
theorem moves_generate_valid_moves (s : GameState) :
    (generate_valid_moves s).2 = (generate_moves_pos s.pos).moves := rfl

/-- The `in_check` field set by `generate_valid_moves`. -/
theorem in_check_generate_valid_moves (s : GameState) :
    ((generate_valid_moves s).1).in_check = (generate_moves_pos s.pos).in_check := rfl

/-- The `checkmate` flag set by `generate_valid_moves`. -/
theorem checkmate_generate_valid_moves (s : GameState) :
    ((generate_valid_moves s).1).checkmate =
      (if (generate_moves_pos s.pos).moves.length = 0 then
        (if (generate_moves_pos s.pos).in_check then true else s.checkmate)
      else false) := rfl

/-- The `stalemate` flag set by `generate_valid_moves`. -/
theorem stalemate_generate_valid_moves (s : GameState) :
    ((generate_valid_moves s).1).stalemate =
      (if (generate_moves_pos s.pos).moves.length = 0 then
        (if (generate_moves_pos s.pos).in_check then s.stalemate else true)
      else false) := rfl

/-- C8 (confirmed): `generate_valid_moves` leaves the board, the
side-to-move, both king locations, the en-passant target and the castling
rights equal to their values on entry — for every state, hence in
particular for every reachable one. (The trial king relocations and the
side flips of the attack tests happen on copies handed to the analyzer;
the en-passant target and castling rights saved at entry are written back
unchanged.) -/
theorem generate_valid_moves_preserves_observable_position (s : GameState) :
    ((generate_valid_moves s).1).board = s.board ∧
    ((generate_valid_moves s).1).white_to_move = s.white_to_move ∧
    ((generate_valid_moves s).1).white_king_location = s.white_king_location ∧
    ((generate_valid_moves s).1).black_king_location = s.black_king_location ∧
    ((generate_valid_moves s).1).en_passant_possible = s.en_passant_possible ∧
    ((generate_valid_moves s).1).current_castling_rights = s.current_castling_rights :=
  ⟨rfl, rfl, rfl, rfl, rfl, rfl⟩

/-- C9 (confirmed): `undo_move` on a state with an empty move log returns
the state unchanged — every observable field is untouched (the source only
prints "No moves to undo!"). -/
theorem undo_move_empty_log_is_noop (s : GameState) (h : s.move_log = []) :
    undo_move s = s := by
  unfold undo_move
  rw [h]
  rfl

/-- Witness for C9 at the initial state (whose move log is empty). -/
theorem undo_move_empty_log_is_noop_witness :
    initialState.move_log = [] ∧ undo_move initialState = initialState :=
  ⟨rfl, undo_move_empty_log_is_noop initialState rfl⟩

/-- C10 (confirmed): a `Move` constructed with `is_en_passant = true`
records the enemy pawn as `piece_captured` — `"wp"` when the moving piece
is a black pawn and `"bp"` otherwise — regardless of the contents of the
end square, while a move constructed with `is_en_passant = false` takes
`piece_captured` from the end square of the board. -/
theorem move_init_piece_captured_en_passant (st en : Int × Int) (b : Board) (c : Bool) :
    (Move.init st en b true c).piece_captured =
      (if (Move.init st en b true c).piece_moved = "bp" then "wp" else "bp") ∧
    (Move.init st en b false c).piece_captured = getTile b en.1 en.2 :=
  ⟨rfl, rfl⟩

/-- C6 (confirmed): `score_board` returns `-CHECKMATE` on a checkmate with
white to move, `+CHECKMATE` on a checkmate with black to move, `STALEMATE`
(= 0) on a stalemate that is not a checkmate, and the piece-square score
otherwise; with `CHECKMATE = 100000` and `STALEMATE = 0`. -/
theorem score_board_cases (s : GameState) :
    score_board s =
      (if s.checkmate then (if s.white_to_move then -CHECKMATE else CHECKMATE)
       else if s.stalemate then STALEMATE
       else score_material_piece_table s) ∧
    CHECKMATE = 100000 ∧ STALEMATE = 0 :=
  ⟨rfl, rfl, rfl⟩

/-! ## The material score (C5) -/

/-- The spec's reading of the material score: `MATERIAL_VALUES` summed over
the board with white pieces positive and black pieces negative,
independent of the side to move (§4.2 of the spec). -/
def materialWhitePositive (b : Board) : Int :=
  b.foldl
    (fun sc row =>
      row.foldl
        (fun sc tile =>
          if colorOf tile = 'w' then sc + MATERIAL_VALUES (kindOf tile)
          else if colorOf tile = 'b' then sc - MATERIAL_VALUES (kindOf tile)
          else sc)
        sc)
    0

/-- A position with black to move and a lone extra white pawn: white king
e1, black king e8, white pawn a2. -/
def lonePawnBlackToMove : GameState :=
  { initialState with
    board :=
      [["--", "--", "--", "--", "bK", "--", "--", "--"],
       ["--", "--", "--", "--", "--", "--", "--", "--"],
       ["--", "--", "--", "--", "--", "--", "--", "--"],
       ["--", "--", "--", "--", "--", "--", "--", "--"],
       ["--", "--", "--", "--", "--", "--", "--", "--"],
       ["--", "--", "--", "--", "--", "--", "--", "--"],
       ["wp", "--", "--", "--", "--", "--", "--", "--"],
       ["--", "--", "--", "--", "wK", "--", "--", "--"]]
    white_to_move := false
    current_castling_rights := ⟨false, false, false, false⟩
    castle_rights_log := [⟨false, false, false, false⟩] }

/-- The white-ally tile step of `score_material`. -/
def tileStepW (sc : Int) (tile : String) : Int :=
  if colorOf tile = 'w' then sc + MATERIAL_VALUES (kindOf tile)
  else if colorOf tile = 'b' then sc - MATERIAL_VALUES (kindOf tile)
  else sc

/-- The black-ally tile step of `score_material`. -/
def tileStepB (sc : Int) (tile : String) : Int :=
  if colorOf tile = 'b' then sc + MATERIAL_VALUES (kindOf tile)
  else if colorOf tile = 'w' then sc - MATERIAL_VALUES (kindOf tile)
  else sc

/-- `tileStepW` adds a tile-determined value. -/
theorem tileStepW_shift (a : Int) (t : String) : tileStepW a t = a + tileStepW 0 t := by
  unfold tileStepW
  by_cases hw : colorOf t = 'w'
  · rw [if_pos hw, if_pos hw]; ring
  · rw [if_neg hw, if_neg hw]
    by_cases hb : colorOf t = 'b'
    · rw [if_pos hb, if_pos hb]; ring
    · rw [if_neg hb, if_neg hb]; ring

/-- `tileStepB` subtracts the value that `tileStepW` adds. -/
theorem tileStepB_neg (a : Int) (t : String) : tileStepB a t = a - tileStepW 0 t := by
  unfold tileStepB tileStepW
  by_cases hw : colorOf t = 'w'
  · have hb : ¬ colorOf t = 'b' := by rw [hw]; decide
    rw [if_neg hb, if_pos hw, if_pos hw]; ring
  · by_cases hb : colorOf t = 'b'
    · rw [if_pos hb, if_neg hw, if_pos hb]; ring
    · rw [if_neg hb, if_neg hw, if_neg hw, if_neg hb]; ring

/-- The per-row white fold shifts by its value at 0. -/
theorem row_fold_white_shift (l : List String) :
    ∀ a : Int, l.foldl tileStepW a = a + l.foldl tileStepW 0 := by
  induction l with
  | nil => intro a; simp
  | cons t ts ih =>
    intro a
    simp only [List.foldl_cons]
    rw [ih (tileStepW a t), ih (tileStepW 0 t), tileStepW_shift a t]
    ring

/-- The per-row black fold is the negated mirror of the white fold. -/
theorem row_fold_black_neg (l : List String) :
    ∀ a : Int, l.foldl tileStepB a = a - l.foldl tileStepW 0 := by
  induction l with
  | nil => intro a; simp
  | cons t ts ih =>
    intro a
    simp only [List.foldl_cons]
    rw [ih (tileStepB a t), row_fold_white_shift ts (tileStepW 0 t), tileStepB_neg a t]
    ring

/-- The board-level white fold shifts by its value at 0. -/
theorem board_fold_white_shift (rows : List (List String)) :
    ∀ a : Int,
      rows.foldl (fun sc row => row.foldl tileStepW sc) a =
        a + rows.foldl (fun sc row => row.foldl tileStepW sc) 0 := by
  induction rows with
  | nil => intro a; simp
  | cons r rs ih =>
    intro a
    simp only [List.foldl_cons]
    rw [ih (r.foldl tileStepW a), ih (r.foldl tileStepW 0), row_fold_white_shift r a]
    ring

/-- The board-level black fold is the negated mirror of the white fold. -/
theorem board_fold_black_neg (rows : List (List String)) :
    ∀ a : Int,
      rows.foldl (fun sc row => row.foldl tileStepB sc) a =
        a - rows.foldl (fun sc row => row.foldl tileStepW sc) 0 := by
  induction rows with
  | nil => intro a; simp
  | cons r rs ih =>
    intro a
    simp only [List.foldl_cons]
    rw [ih (r.foldl tileStepB a), board_fold_white_shift rs (r.foldl tileStepW 0),
      row_fold_black_neg r a]
    ring

/-- `score_material` written with the named tile steps. -/
theorem score_material_eq_fold (s : GameState) :
    score_material s =
      (if s.white_to_move then
        s.board.foldl (fun sc row => row.foldl tileStepW sc) 0
      else
        s.board.foldl (fun sc row => row.foldl tileStepB sc) 0) := by
  by_cases h : s.white_to_move <;>
    simp only [score_material, h, if_true, if_false] <;> rfl

/-- `materialWhitePositive` is the white fold. -/
theorem materialWhitePositive_eq_fold (b : Board) :
    materialWhitePositive b = b.foldl (fun sc row => row.foldl tileStepW sc) 0 := rfl

-- SLOW-BEGIN
/-- C5 (corrected), counterexample: with black to move, `score_material`
is not the white-positive sum of `MATERIAL_VALUES` — on a board whose only
material is one white pawn it returns `-100` while the white-positive sum
is `100`. -/
theorem score_material_counterexample :
    score_material lonePawnBlackToMove = -100 ∧
    materialWhitePositive lonePawnBlackToMove.board = 100 ∧
    score_material lonePawnBlackToMove ≠ materialWhitePositive lonePawnBlackToMove.board := by
  refine ⟨by decide, by decide, by decide⟩

-- SLOW-END
/-- C5 (corrected), amended: `score_material` computes the material sum
relative to the side to move — the white-positive sum when white is to
move, and its negation when black is to move (values p=100, N=320, B=330,
R=500, Q=900, K=0 as claimed). -/
theorem score_material_relative_to_side (s : GameState) :
    score_material s =
      (if s.white_to_move then 1 else -1) * materialWhitePositive s.board := by
  rw [score_material_eq_fold, materialWhitePositive_eq_fold]
  by_cases h : s.white_to_move
  · rw [if_pos h, if_pos h]; ring
  · rw [if_neg h, if_neg h, board_fold_black_neg s.board 0]; ring

/-! ## The minimax depth-0 bug (C4) -/

/-- A stalemate position: black king a8 to move, white queen c7, white
king b6; black has no legal moves and is not in check. -/
def cornerStalemate : GameState :=
  { initialState with
    board :=
      [["bK", "--", "--", "--", "--", "--", "--", "--"],
       ["--", "--", "wQ", "--", "--", "--", "--", "--"],
       ["--", "wK", "--", "--", "--", "--", "--", "--"],
       ["--", "--", "--", "--", "--", "--", "--", "--"],
       ["--", "--", "--", "--", "--", "--", "--", "--"],
       ["--", "--", "--", "--", "--", "--", "--", "--"],
       ["--", "--", "--", "--", "--", "--", "--", "--"],
       ["--", "--", "--", "--", "--", "--", "--", "--"]]
    white_to_move := false
    white_king_location := (2, 1)
    black_king_location := (0, 0)
    current_castling_rights := ⟨false, false, false, false⟩
    castle_rights_log := [⟨false, false, false, false⟩] }

-- SLOW-BEGIN
/-- C4 (code_bug): at depth 0 `find_move_minimax` computes `score_board()`
but does not return it. On the stalemate position the board evaluation is
0 (`STALEMATE`), yet the recursion (entered with black to move, an empty
move set and depth 0) returns `CHECKMATE = 100000`, the untouched
initialization of `min_score` — not the board evaluation. -/
theorem find_move_minimax_depth_zero_drops_evaluation :
    (generate_valid_moves cornerStalemate).1.stalemate = true ∧
    (generate_valid_moves cornerStalemate).2 = [] ∧
    score_board (generate_valid_moves cornerStalemate).1 = 0 ∧
    (find_move_minimax 1 (generate_valid_moves cornerStalemate).1 []
        (generate_valid_moves cornerStalemate).2 false 0).map (fun r => r.2.2)
      = some CHECKMATE := by
  have h : (generate_valid_moves cornerStalemate).2 = [] := by decide
  refine ⟨by decide, h, by decide, ?_⟩
  rw [h]
  simp [find_move_minimax, minimax_loop_black]

-- SLOW-END
/-! ## Checkmate / stalemate flags after generation (C3) -/

/-- Flag coherence maintained by every engine operation: a set `checkmate`
(resp. `stalemate`) flag can only record that the position has no legal
moves and is (resp. is not) in check. -/
def FlagsInv (s : GameState) : Prop :=
  (s.checkmate = true →
    (generate_moves_pos s.pos).in_check = true ∧ (generate_moves_pos s.pos).moves = []) ∧
  (s.stalemate = true →
    (generate_moves_pos s.pos).in_check = false ∧ (generate_moves_pos s.pos).moves = [])

/-- The initial state has both flags clear. -/
theorem flagsInv_initial : FlagsInv initialState := by
  constructor <;> intro h <;> exact absurd h (by decide)

/-- `make_move` clears both flags. -/
theorem flagsInv_make (s : GameState) (m : Move) : FlagsInv (make_move s m) := by
  constructor <;> intro h <;> exact Bool.noConfusion h

/-- `undo_move` clears both flags (or leaves the state alone). -/
theorem flagsInv_undo (s : GameState) (hs : FlagsInv s) : FlagsInv (undo_move s) := by
  unfold undo_move
  split
  · exact hs
  · constructor <;> intro h <;> exact Bool.noConfusion h

/-- `generate_valid_moves` maintains flag coherence. -/
theorem flagsInv_gen (s : GameState) (hs : FlagsInv s) :
    FlagsInv ((generate_valid_moves s).1) := by
  have hpos : ((generate_valid_moves s).1).pos = s.pos := rfl
  constructor
  · intro h
    rw [hpos]
    rw [checkmate_generate_valid_moves] at h
    by_cases hlen : (generate_moves_pos s.pos).moves.length = 0
    · rw [if_pos hlen] at h
      cases hic : (generate_moves_pos s.pos).in_check with
      | true => exact ⟨rfl, List.length_eq_zero.mp hlen⟩
      | false =>
        rw [hic] at h
        simp only [Bool.false_eq_true, if_false] at h
        exact absurd hic (by rw [(hs.1 h).1]; decide)
    · rw [if_neg hlen] at h
      exact Bool.noConfusion h
  · intro h
    rw [hpos]
    rw [stalemate_generate_valid_moves] at h
    by_cases hlen : (generate_moves_pos s.pos).moves.length = 0
    · rw [if_pos hlen] at h
      cases hic : (generate_moves_pos s.pos).in_check with
      | false => exact ⟨rfl, List.length_eq_zero.mp hlen⟩
      | true =>
        rw [hic] at h
        simp only [if_true] at h
        exact absurd hic (by rw [(hs.2 h).1]; decide)
    · rw [if_neg hlen] at h
      exact Bool.noConfusion h

/-- Every reachable state is flag-coherent. -/
theorem reachable_flagsInv {s : GameState} (h : Reachable s) : FlagsInv s := by
  induction h with
  | init => exact flagsInv_initial
  | gen _ ih => exact flagsInv_gen _ ih
  | mk _ _ => exact flagsInv_make _ _
  | undo _ ih => exact flagsInv_undo _ ih

/-- C3 (confirmed): after `generate_valid_moves` on a reachable state, an
empty move set makes `checkmate` equal to `in_check` and `stalemate` its
negation (so exactly one of the two is set), while a non-empty move set
clears both flags. -/
theorem generate_valid_moves_flags (s : GameState) (h : Reachable s) :
    ((generate_valid_moves s).2 = [] →
      ((generate_valid_moves s).1).checkmate = ((generate_valid_moves s).1).in_check ∧
      ((generate_valid_moves s).1).stalemate = !((generate_valid_moves s).1).in_check) ∧
    ((generate_valid_moves s).2 ≠ [] →
      ((generate_valid_moves s).1).checkmate = false ∧
      ((generate_valid_moves s).1).stalemate = false) := by
  have hs := reachable_flagsInv h
  rw [moves_generate_valid_moves, checkmate_generate_valid_moves,
    stalemate_generate_valid_moves, in_check_generate_valid_moves]
  constructor
  · intro hnil
    have hlen : (generate_moves_pos s.pos).moves.length = 0 := by rw [hnil]; rfl
    rw [if_pos hlen, if_pos hlen]
    cases hic : (generate_moves_pos s.pos).in_check with
    | true =>
      refine ⟨by simp, ?_⟩
      cases hsm : s.stalemate with
      | false => simp [hsm]
      | true =>
        have hic0 := (hs.2 hsm).1
        rw [hic] at hic0
        exact absurd hic0 (by decide)
    | false =>
      refine ⟨?_, by simp⟩
      cases hcm : s.checkmate with
      | false => simp [hcm]
      | true =>
        have hic0 := (hs.1 hcm).1
        rw [hic] at hic0
        exact absurd hic0 (by decide)
  · intro hnil
    have hlen : ¬ (generate_moves_pos s.pos).moves.length = 0 := by
      intro h0
      exact hnil (List.length_eq_zero.mp h0)
    rw [if_neg hlen, if_neg hlen]
    exact ⟨rfl, rfl⟩

-- SLOW-BEGIN
/-- Witness for C3 at the initial state: twenty moves, both flags clear. -/
theorem generate_valid_moves_flags_witness :
    (generate_valid_moves initialState).2 ≠ [] ∧
    ((generate_valid_moves initialState).1).checkmate = false ∧
    ((generate_valid_moves initialState).1).stalemate = false :=
  ⟨by decide, (generate_valid_moves_flags initialState Reachable.init).2 (by decide)⟩

-- SLOW-END
/-! ## Make / undo and the en-passant target (C1) -/

/-- White's double pawn step e2-e4 in the initial position. -/
def mvE4 : Move := Move.init (6, 4) (4, 4) initialState.board false false

/-- The reachable position after 1. e4: black to move with the en-passant
target set to the skipped square e3 = (5, 4). -/
def stateAfterE4 : GameState := make_move (generate_valid_moves initialState).1 mvE4

/-- Black's knight move g8-f6 in that position (neither an en-passant
capture nor a pawn double step). -/
def mvNf6 : Move := Move.init (0, 6) (2, 5) stateAfterE4.board false false

-- SLOW-BEGIN
/-- C1 (corrected), counterexample: in the reachable position after 1. e4
the en-passant target is (5, 4), the knight move g8-f6 is legal, and
making then undoing it leaves the en-passant target cleared to
`(NO_VALUE, NO_VALUE)` instead of restoring (5, 4). -/
theorem make_undo_drops_en_passant_target :
    Reachable stateAfterE4 ∧
    (625, mvNf6) ∈ (generate_valid_moves stateAfterE4).2 ∧
    stateAfterE4.en_passant_possible = (5, 4) ∧
    (undo_move (make_move (generate_valid_moves stateAfterE4).1 mvNf6)).en_passant_possible
      = (NO_VALUE, NO_VALUE) ∧
    (undo_move (make_move (generate_valid_moves stateAfterE4).1 mvNf6)).en_passant_possible
      ≠ stateAfterE4.en_passant_possible :=
  ⟨Reachable.mk Reachable.init
      (by decide : (6444, mvE4) ∈ (generate_valid_moves initialState).2),
   by decide, by decide, by decide, by decide⟩

-- SLOW-END
/-! ## Castling through a pawn attack (C2)

`tile_under_attack` collects the opponent's pseudo-moves, but a pawn's
diagonal capture is only generated when an enemy piece stands on the
target square — a pawn attack on an *empty* transit or landing square of
a castle is invisible to it. The line 1. Nf3 g5 2. e3 g4 3. Be2 g3 4. a3
gxh2 reaches a position where white may still castle king side, yet g1 is
attacked by the black pawn on h2. -/

/-- 1. Nf3. -/
def c2m1 : Move := Move.init (7, 6) (5, 5) initialState.board false false

/-- After 1. Nf3. -/
def c2s1 : GameState := make_move (generate_valid_moves initialState).1 c2m1

/-- 1... g5. -/
def c2m2 : Move := Move.init (1, 6) (3, 6) c2s1.board false false

/-- After 1... g5. -/
def c2s2 : GameState := make_move (generate_valid_moves c2s1).1 c2m2

/-- 2. e3. -/
def c2m3 : Move := Move.init (6, 4) (5, 4) c2s2.board false false

/-- After 2. e3. -/
def c2s3 : GameState := make_move (generate_valid_moves c2s2).1 c2m3

/-- 2... g4. -/
def c2m4 : Move := Move.init (3, 6) (4, 6) c2s3.board false false

/-- After 2... g4. -/
def c2s4 : GameState := make_move (generate_valid_moves c2s3).1 c2m4

/-- 3. Be2. -/
def c2m5 : Move := Move.init (7, 5) (6, 4) c2s4.board false false

/-- After 3. Be2. -/
def c2s5 : GameState := make_move (generate_valid_moves c2s4).1 c2m5

/-- 3... g3. -/
def c2m6 : Move := Move.init (4, 6) (5, 6) c2s5.board false false

/-- After 3... g3. -/
def c2s6 : GameState := make_move (generate_valid_moves c2s5).1 c2m6

/-- 4. a3. -/
def c2m7 : Move := Move.init (6, 0) (5, 0) c2s6.board false false

/-- After 4. a3. -/
def c2s7 : GameState := make_move (generate_valid_moves c2s6).1 c2m7

/-- 4... gxh2. -/
def c2m8 : Move := Move.init (5, 6) (6, 7) c2s7.board false false

/-- After 4... gxh2: white to move, castle rights intact, f1 and g1 empty,
black pawn on h2. -/
def c2s8 : GameState := make_move (generate_valid_moves c2s7).1 c2m8

/-- White's king-side castle e1-g1 in that position. -/
def c2castle : Move := Move.init (7, 4) (7, 6) c2s8.board false true

-- SLOW-BEGIN
/-- C2 (code_bug): the reachable position after 1. Nf3 g5 2. e3 g4 3. Be2
g3 4. a3 gxh2 offers the king-side castle among the generated moves, yet
after making it the pin/check analyzer, run for white (the side that just
moved), reports check — the black pawn on h2 attacks the king's landing
square g1, which `tile_under_attack` cannot see on an empty square. -/
theorem generate_valid_moves_castles_into_pawn_check :
    Reachable c2s8 ∧
    (7476, c2castle) ∈ (generate_valid_moves c2s8).2 ∧
    (check_for_pins_and_checks
      { (make_move (generate_valid_moves c2s8).1 c2castle).pos with white_to_move := true }).1
      = true :=
  ⟨Reachable.mk (Reachable.mk (Reachable.mk (Reachable.mk (Reachable.mk (Reachable.mk
      (Reachable.mk (Reachable.mk Reachable.init
        (by decide : (7655, c2m1) ∈ (generate_valid_moves initialState).2))
        (by decide : (1636, c2m2) ∈ (generate_valid_moves c2s1).2))
        (by decide : (6454, c2m3) ∈ (generate_valid_moves c2s2).2))
        (by decide : (3646, c2m4) ∈ (generate_valid_moves c2s3).2))
        (by decide : (7564, c2m5) ∈ (generate_valid_moves c2s4).2))
        (by decide : (4656, c2m6) ∈ (generate_valid_moves c2s5).2))
        (by decide : (6050, c2m7) ∈ (generate_valid_moves c2s6).2))
        (by decide : (5667, c2m8) ∈ (generate_valid_moves c2s7).2),
   by decide, by decide⟩

-- SLOW-END
/-! ## Index algebra for the 8×8 board -/

/-- A rectangular 8×8 board. -/
def BoardShape (b : Board) : Prop :=
  b.length = 8 ∧ ∀ row ∈ b, row.length = 8

/-- A square within the 8×8 board. -/
def onBoard (r c : Int) : Prop := 0 ≤ r ∧ r < 8 ∧ 0 ≤ c ∧ c < 8

theorem mem_pyRange {a b i : Int} (h : i ∈ pyRange a b) : a ≤ i ∧ i < b := by
  simp [pyRange] at h
  obtain ⟨k, hk, rfl⟩ := h
  omega

theorem pyRange_zero_eight : pyRange 0 8 = [0, 1, 2, 3, 4, 5, 6, 7] := by decide

theorem listGetD_set_eq {α : Type} (l : List α) (n : Nat) (v d : α) (h : n < l.length) :
    (l.set n v).getD n d = v := by
  induction l generalizing n with
  | nil => simp at h
  | cons x xs ih =>
    cases n with
    | zero => rfl
    | succ k => exact ih k (by simpa using h)

theorem listGetD_set_ne {α : Type} (l : List α) (n k : Nat) (v d : α) (h : n ≠ k) :
    (l.set n v).getD k d = l.getD k d := by
  induction l generalizing n k with
  | nil => rfl
  | cons x xs ih =>
    cases n with
    | zero =>
      cases k with
      | zero => exact absurd rfl h
      | succ j => rfl
    | succ n2 =>
      cases k with
      | zero => rfl
      | succ j => exact ih n2 j (by omega)

theorem listSet_getD_self {α : Type} (l : List α) (n : Nat) (d : α) (h : n < l.length) :
    l.set n (l.getD n d) = l := by
  induction l generalizing n with
  | nil => rfl
  | cons x xs ih =>
    cases n with
    | zero => rfl
    | succ k =>
      show x :: xs.set k ((x :: xs).getD (k + 1) d) = x :: xs
      have hgd : (x :: xs).getD (k + 1) d = xs.getD k d := rfl
      rw [hgd, ih k (by simpa using h)]

theorem pyNth_int_eq {α : Type} (d : α) (l : List α) (i : Int) (h0 : 0 ≤ i)
    (h1 : i < (l.length : Int)) : pyNth d l i = l.getD i.toNat d := by
  unfold pyNth
  rw [if_pos ⟨h0, h1⟩]

theorem pySetNth_int_eq {α : Type} (l : List α) (i : Int) (v : α) (h0 : 0 ≤ i)
    (h1 : i < (l.length : Int)) : pySetNth l i v = l.set i.toNat v := by
  unfold pySetNth
  rw [if_pos ⟨h0, h1⟩]

theorem boardShape_row_length {b : Board} (hb : BoardShape b) {r : Int} (h0 : 0 ≤ r)
    (h1 : r < 8) : (pyNth [] b r).length = 8 := by
  rw [pyNth_int_eq [] b r h0 (by rw [hb.1]; exact_mod_cast h1)]
  apply hb.2
  have hlt : r.toNat < b.length := by rw [hb.1]; omega
  rw [List.getD_eq_getElem _ _ hlt]
  exact List.getElem_mem hlt

theorem getTile_eq {b : Board} (hb : BoardShape b) {r c : Int} (h : onBoard r c) :
    getTile b r c = (b.getD r.toNat []).getD c.toNat "--" := by
  obtain ⟨h1, h2, h3, h4⟩ := h
  unfold getTile
  rw [pyNth_int_eq [] b r h1 (by rw [hb.1]; exact_mod_cast h2)]
  rw [pyNth_int_eq "--" _ c h3]
  rw [← pyNth_int_eq [] b r h1 (by rw [hb.1]; exact_mod_cast h2),
    boardShape_row_length hb h1 h2]
  exact_mod_cast h4

theorem setTile_eq {b : Board} (hb : BoardShape b) {r c : Int} (h : onBoard r c) (v : String) :
    setTile b r c v = b.set r.toNat ((b.getD r.toNat []).set c.toNat v) := by
  obtain ⟨h1, h2, h3, h4⟩ := h
  unfold setTile
  rw [if_pos ⟨h1, by rw [hb.1]; exact_mod_cast h2⟩]
  congr 1
  apply pySetNth_int_eq _ _ _ h3
  have hlen : (b.getD r.toNat []).length = 8 := by
    rw [← pyNth_int_eq [] b r h1 (by rw [hb.1]; exact_mod_cast h2)]
    exact boardShape_row_length hb h1 h2
  rw [hlen]
  exact_mod_cast h4

theorem boardShape_setTile {b : Board} (hb : BoardShape b) {r c : Int} (h : onBoard r c)
    (v : String) : BoardShape (setTile b r c v) := by
  obtain ⟨h1, h2, h3, h4⟩ := h
  rw [setTile_eq hb ⟨h1, h2, h3, h4⟩ v]
  constructor
  · rw [List.length_set]; exact hb.1
  · intro row hrow
    rcases List.mem_or_eq_of_mem_set hrow with hmem | heq
    · exact hb.2 row hmem
    · subst heq
      rw [List.length_set, ← pyNth_int_eq [] b r h1 (by rw [hb.1]; exact_mod_cast h2)]
      exact boardShape_row_length hb h1 h2

theorem getTile_setTile_eq {b : Board} (hb : BoardShape b) {r c : Int} (h : onBoard r c)
    (v : String) : getTile (setTile b r c v) r c = v := by
  obtain ⟨h1, h2, h3, h4⟩ := h
  have hr : r.toNat < b.length := by rw [hb.1]; omega
  have hc : c.toNat < (b.getD r.toNat []).length := by
    rw [← pyNth_int_eq [] b r h1 (by rw [hb.1]; exact_mod_cast h2),
      boardShape_row_length hb h1 h2]
    omega
  rw [getTile_eq (boardShape_setTile hb ⟨h1, h2, h3, h4⟩ v) ⟨h1, h2, h3, h4⟩,
    setTile_eq hb ⟨h1, h2, h3, h4⟩ v,
    listGetD_set_eq _ _ _ _ (by simpa using hr),
    listGetD_set_eq _ _ _ _ hc]

theorem getTile_setTile_ne {b : Board} (hb : BoardShape b) {r c r2 c2 : Int}
    (h : onBoard r c) (h2 : onBoard r2 c2) (hne : ¬(r = r2 ∧ c = c2)) (v : String) :
    getTile (setTile b r c v) r2 c2 = getTile b r2 c2 := by
  obtain ⟨ha1, ha2, ha3, ha4⟩ := h
  obtain ⟨hb1, hb2, hb3, hb4⟩ := h2
  rw [getTile_eq (boardShape_setTile hb ⟨ha1, ha2, ha3, ha4⟩ v) ⟨hb1, hb2, hb3, hb4⟩,
    setTile_eq hb ⟨ha1, ha2, ha3, ha4⟩ v, getTile_eq hb ⟨hb1, hb2, hb3, hb4⟩]
  by_cases hrr : r = r2
  · subst hrr
    have hcc : ¬ (c = c2) := fun hc => hne ⟨rfl, hc⟩
    rw [listGetD_set_eq _ _ _ _ (by rw [hb.1]; omega),
      listGetD_set_ne _ _ _ _ _ (by omega)]
  · rw [listGetD_set_ne _ _ _ _ _ (by omega)]

theorem setTile_setTile_eq {b : Board} (hb : BoardShape b) {r c : Int} (h : onBoard r c)
    (v w : String) : setTile (setTile b r c v) r c w = setTile b r c w := by
  obtain ⟨h1, h2, h3, h4⟩ := h
  have hsh : BoardShape (setTile b r c v) := boardShape_setTile hb ⟨h1, h2, h3, h4⟩ v
  rw [setTile_eq hsh ⟨h1, h2, h3, h4⟩ w, setTile_eq hb ⟨h1, h2, h3, h4⟩ v,
    setTile_eq hb ⟨h1, h2, h3, h4⟩ w]
  rw [listGetD_set_eq _ _ _ _ (by rw [hb.1]; omega), List.set_set, List.set_set]

theorem setTile_getTile_self {b : Board} (hb : BoardShape b) {r c : Int} (h : onBoard r c) :
    setTile b r c (getTile b r c) = b := by
  obtain ⟨h1, h2, h3, h4⟩ := h
  have hr : r.toNat < b.length := by rw [hb.1]; omega
  have hc : c.toNat < (b.getD r.toNat []).length := by
    rw [← pyNth_int_eq [] b r h1 (by rw [hb.1]; exact_mod_cast h2),
      boardShape_row_length hb h1 h2]
    omega
  rw [setTile_eq hb ⟨h1, h2, h3, h4⟩ _, getTile_eq hb ⟨h1, h2, h3, h4⟩,
    listSet_getD_self _ _ _ hc, listSet_getD_self _ _ _ hr]

theorem setTile_comm {b : Board} (hb : BoardShape b) {r c r2 c2 : Int}
    (h : onBoard r c) (h2 : onBoard r2 c2) (hne : ¬(r = r2 ∧ c = c2)) (v w : String) :
    setTile (setTile b r c v) r2 c2 w = setTile (setTile b r2 c2 w) r c v := by
  obtain ⟨ha1, ha2, ha3, ha4⟩ := h
  obtain ⟨hb1, hb2, hb3, hb4⟩ := h2
  have hshv : BoardShape (setTile b r c v) := boardShape_setTile hb ⟨ha1, ha2, ha3, ha4⟩ v
  have hshw : BoardShape (setTile b r2 c2 w) := boardShape_setTile hb ⟨hb1, hb2, hb3, hb4⟩ w
  rw [setTile_eq hshv ⟨hb1, hb2, hb3, hb4⟩ w, setTile_eq hb ⟨ha1, ha2, ha3, ha4⟩ v,
    setTile_eq hshw ⟨ha1, ha2, ha3, ha4⟩ v, setTile_eq hb ⟨hb1, hb2, hb3, hb4⟩ w]
  by_cases hrr : r = r2
  · subst hrr
    have hcc : ¬ (c = c2) := fun hc => hne ⟨rfl, hc⟩
    rw [listGetD_set_eq _ _ _ _ (by rw [hb.1]; omega),
      listGetD_set_eq _ _ _ _ (by rw [hb.1]; omega),
      List.set_set, List.set_set, List.set_comm _ _ _ (by omega)]
  · rw [listGetD_set_ne _ _ _ _ _ (by omega), listGetD_set_ne _ _ _ _ _ (by omega),
      List.set_comm _ _ _ (by omega)]

/-- Boards of the same shape agree once all their squares agree. -/
theorem board_ext {b b2 : Board} (hb : BoardShape b) (hb2 : BoardShape b2)
    (h : ∀ r c : Int, onBoard r c → getTile b2 r c = getTile b r c) : b2 = b := by
  apply List.ext_getElem (by rw [hb.1, hb2.1])
  intro i h1 h2
  apply List.ext_getElem
  · have e1 : b2[i] ∈ b2 := List.getElem_mem h1
    have e2 : b[i] ∈ b := List.getElem_mem h2
    rw [hb.2 _ e2, hb2.2 _ e1]
  · intro j hj1 hj2
    have hi8 : i < 8 := by have := hb2.1; omega
    have hj8 : j < 8 := by
      have hm : b[i] ∈ b := List.getElem_mem h2
      have := hb.2 _ hm; omega
    have hob : onBoard (i : Int) (j : Int) :=
      ⟨by omega, by exact_mod_cast hi8, by omega, by exact_mod_cast hj8⟩
    have heq := h i j hob
    rw [getTile_eq hb hob, getTile_eq hb2 hob] at heq
    have hti : ((i : Int)).toNat = i := by omega
    have htj : ((j : Int)).toNat = j := by omega
    rw [hti, htj, List.getD_eq_getElem _ _ h2, List.getD_eq_getElem _ _ h1,
      List.getD_eq_getElem _ _ hj2, List.getD_eq_getElem _ _ hj1] at heq
    exact heq


/-! ## Well-formed positions and coherent moves -/

/-- The thirteen values a square can hold. -/
def pieceStrings : List String :=
  ["--", "wp", "wR", "wN", "wB", "wQ", "wK", "bp", "bR", "bN", "bB", "bQ", "bK"]

/-- Structural well-formedness of a position, true of every position the
engine can reach: the board is 8×8 over the thirteen square values, a king
on the board stands where its recorded location says, the recorded
locations are on the board, no white pawn sits on row 0 and no black pawn
on row 7 (they promote), the en-passant target is either the sentinel or
the just-skipped square of a double step still on the board, an intact
castling right pins the king to its home square, and an intact right keeps
the corresponding rook in its corner. -/
structure WellFormedPos (p : Position) : Prop where
  shape : BoardShape p.board
  kingsW : ∀ r c : Int, onBoard r c → getTile p.board r c = "wK" → (r, c) = p.white_king_location
  kingsB : ∀ r c : Int, onBoard r c → getTile p.board r c = "bK" → (r, c) = p.black_king_location
  wkRange : onBoard p.white_king_location.1 p.white_king_location.2
  bkRange : onBoard p.black_king_location.1 p.black_king_location.2
  pawnRows : ∀ c : Int, 0 ≤ c → c < 8 → getTile p.board 0 c ≠ "wp" ∧ getTile p.board 7 c ≠ "bp"
  tiles : ∀ r c : Int, onBoard r c → getTile p.board r c ∈ pieceStrings
  epTarget :
    p.en_passant_possible = ((NO_VALUE : Int), (NO_VALUE : Int)) ∨
    (∃ c : Int, 0 ≤ c ∧ c < 8 ∧
      ((p.white_to_move = false ∧ p.en_passant_possible = (5, c) ∧
        getTile p.board 5 c = "--" ∧ getTile p.board 4 c = "wp") ∨
       (p.white_to_move = true ∧ p.en_passant_possible = (2, c) ∧
        getTile p.board 2 c = "--" ∧ getTile p.board 3 c = "bp")))
  castleW : (p.current_castling_rights.wks = true ∨ p.current_castling_rights.wqs = true) →
    p.white_king_location = (7, 4)
  castleB : (p.current_castling_rights.bks = true ∨ p.current_castling_rights.bqs = true) →
    p.black_king_location = (0, 4)
  corners : (p.current_castling_rights.wks = true → getTile p.board 7 7 = "wR") ∧
    (p.current_castling_rights.wqs = true → getTile p.board 7 0 = "wR") ∧
    (p.current_castling_rights.bks = true → getTile p.board 0 7 = "bR") ∧
    (p.current_castling_rights.bqs = true → getTile p.board 0 0 = "bR")

/-- Well-formedness of a full game state: its position part, and a
castling-rights log whose last snapshot is the current rights. -/
def WellFormed (s : GameState) : Prop :=
  WellFormedPos s.pos ∧ s.castle_rights_log.getLast? = some s.current_castling_rights

/-- Coherence of a generated move with the position it was generated from:
everything `make_move` / `undo_move` rely on to be mutually inverse. -/
structure MoveOK (p : Position) (m : Move) : Prop where
  srange : onBoard m.start_row m.start_col
  erange : onBoard m.end_row m.end_col
  sne : ¬(m.start_row = m.end_row ∧ m.start_col = m.end_col)
  pmEq : m.piece_moved = getTile p.board m.start_row m.start_col
  capEq : m.is_en_passant = false → m.piece_captured = getTile p.board m.end_row m.end_col
  wkEq : m.piece_moved = "wK" → (m.start_row, m.start_col) = p.white_king_location
  bkEq : m.piece_moved = "bK" → (m.start_row, m.start_col) = p.black_king_location
  epOk : m.is_en_passant = true →
    m.is_castle = false ∧ (m.end_row, m.end_col) = p.en_passant_possible ∧
    (m.end_row - m.start_row).natAbs = 1 ∧ ¬ m.start_col = m.end_col ∧
    getTile p.board m.end_row m.end_col = "--" ∧
    getTile p.board m.start_row m.end_col = m.piece_captured
  dsOk : kindOf m.piece_moved = 'p' → (m.end_row - m.start_row).natAbs = 2 →
    m.is_castle = false ∧ m.is_en_passant = false ∧ m.end_col = m.start_col ∧
    getTile p.board ((m.start_row + m.end_row) / 2) m.end_col = "--"
  castleOk : m.is_castle = true →
    m.is_en_passant = false ∧ m.end_row = m.start_row ∧ m.start_col = 4 ∧
    ((m.end_col = 6 ∧ getTile p.board m.start_row 5 = "--" ∧
      getTile p.board m.start_row 6 = "--") ∨
     (m.end_col = 2 ∧ getTile p.board m.start_row 1 = "--" ∧
      getTile p.board m.start_row 2 = "--" ∧ getTile p.board m.start_row 3 = "--"))

theorem int_cases8 {r : Int} (h0 : 0 ≤ r) (h1 : r < 8) :
    r = 0 ∨ r = 1 ∨ r = 2 ∨ r = 3 ∨ r = 4 ∨ r = 5 ∨ r = 6 ∨ r = 7 := by omega

theorem mem_pyRange_zero_eight {r : Int} (h0 : 0 ≤ r) (h1 : r < 8) : r ∈ pyRange 0 8 := by
  rw [pyRange_zero_eight]
  rcases int_cases8 h0 h1 with rfl | rfl | rfl | rfl | rfl | rfl | rfl | rfl <;> simp

/-- Reduce a statement over all board squares to a finite boolean check. -/
theorem forall_onBoard_of_all {P : Int → Int → Prop} [inst : ∀ r c, Decidable (P r c)]
    (h : ((pyRange 0 8).all fun r => (pyRange 0 8).all fun c => decide (P r c)) = true) :
    ∀ r c : Int, onBoard r c → P r c := by
  intro r c hob
  obtain ⟨h0, h1, h2, h3⟩ := hob
  have hr := List.all_eq_true.mp h r (mem_pyRange_zero_eight h0 h1)
  have hc := List.all_eq_true.mp hr c (mem_pyRange_zero_eight h2 h3)
  exact of_decide_eq_true hc

/-- Reduce a statement over a rank or file to a finite boolean check. -/
theorem forall_range8_of_all {P : Int → Prop} [inst : ∀ c, Decidable (P c)]
    (h : ((pyRange 0 8).all fun c => decide (P c)) = true) :
    ∀ c : Int, 0 ≤ c → c < 8 → P c := by
  intro c h0 h1
  exact of_decide_eq_true (List.all_eq_true.mp h c (mem_pyRange_zero_eight h0 h1))

/-- The initial position is well-formed. -/
theorem wellFormed_initial : WellFormed initialState := by
  refine ⟨⟨?_, ?_, ?_, ?_, ?_, ?_, ?_, ?_, ?_, ?_, ?_⟩, rfl⟩
  · exact ⟨rfl, by decide⟩
  · exact forall_onBoard_of_all (by decide)
  · exact forall_onBoard_of_all (by decide)
  · exact ⟨by decide, by decide, by decide, by decide⟩
  · exact ⟨by decide, by decide, by decide, by decide⟩
  · exact forall_range8_of_all (by decide)
  · exact forall_onBoard_of_all (by decide)
  · exact Or.inl rfl
  · intro h; rfl
  · intro h; rfl
  · exact ⟨fun h => rfl, fun h => rfl, fun h => rfl, fun h => rfl⟩

/-! ## The make / undo round trip (C1) -/

/-- What `undo_move` does when the log is non-empty, component by
component (the embedded `generate_valid_moves` call preserves every field
mentioned here). -/
theorem undo_move_components (t : GameState) (m : Move)
    (hlog : t.move_log.getLast? = some m) :
    (undo_move t).board = undoBoard2 (undoBoard1 t.board m) m ∧
    (undo_move t).white_to_move = !t.white_to_move ∧
    (undo_move t).white_king_location =
      (if m.piece_moved = "wK" then (m.start_row, m.start_col) else t.white_king_location) ∧
    (undo_move t).black_king_location =
      (if m.piece_moved = "bK" then (m.start_row, m.start_col) else t.black_king_location) ∧
    (undo_move t).move_log = t.move_log.dropLast ∧
    (undo_move t).castle_rights_log = t.castle_rights_log.dropLast ∧
    (undo_move t).current_castling_rights =
      (t.castle_rights_log.dropLast).getLast?.getD ⟨true, true, true, true⟩ ∧
    (undo_move t).en_passant_possible = undoEnPassant m t.en_passant_possible := by
  unfold undo_move
  rw [hlog]
  exact ⟨rfl, rfl, rfl, rfl, rfl, rfl, rfl, rfl⟩

/-- For a non-castle, non-en-passant move the board after `make_move` is
the start square cleared and the end square overwritten (by the moved
piece, or by the promoted queen). -/
theorem makeBoard_plain (p : Position) (m : Move) (hsh : BoardShape p.board)
    (hm : MoveOK p m) (hcas : m.is_castle = false) (hep : m.is_en_passant = false) :
    ∃ X, makeBoard p.board m =
      setTile (setTile p.board m.start_row m.start_col "--") m.end_row m.end_col X := by
  unfold makeBoard
  simp only [hcas, hep, Bool.false_eq_true, if_false]
  cases hpr : m.is_pawn_promotion with
  | true =>
    refine ⟨String.mk [colorOf m.piece_moved] ++ "Q", ?_⟩
    simp only [hpr, if_true]
    exact setTile_setTile_eq (boardShape_setTile hsh hm.srange "--") hm.erange _ _
  | false =>
    refine ⟨m.piece_moved, ?_⟩
    simp only [hpr, Bool.false_eq_true, if_false]

/-- Undoing a plain move restores the board. -/
theorem undo_make_board_plain (p : Position) (m : Move) (hsh : BoardShape p.board)
    (hm : MoveOK p m) (hcas : m.is_castle = false) (hep : m.is_en_passant = false) :
    undoBoard2 (undoBoard1 (makeBoard p.board m) m) m = p.board := by
  obtain ⟨X, hX⟩ := makeBoard_plain p m hsh hm hcas hep
  have hES : ¬(m.end_row = m.start_row ∧ m.end_col = m.start_col) := by
    intro h
    exact hm.sne ⟨h.1.symm, h.2.symm⟩
  unfold undoBoard2 undoBoard1
  simp only [hcas, hep, Bool.false_eq_true, if_false, hX]
  rw [setTile_comm (boardShape_setTile hsh hm.srange "--") hm.erange hm.srange hES,
    setTile_setTile_eq hsh hm.srange,
    setTile_setTile_eq (boardShape_setTile hsh hm.srange _) hm.erange]
  rw [hm.pmEq, setTile_getTile_self hsh hm.srange,
    hm.capEq hep, setTile_getTile_self hsh hm.erange]

/-- For an en-passant capture the board after `make_move` is the start
square cleared, the end square overwritten and the captured pawn's square
cleared. -/
theorem makeBoard_ep (p : Position) (m : Move) (hsh : BoardShape p.board)
    (hm : MoveOK p m) (hep : m.is_en_passant = true) :
    ∃ X, makeBoard p.board m =
      setTile (setTile (setTile p.board m.start_row m.start_col "--") m.end_row m.end_col X)
        m.start_row m.end_col "--" := by
  have hcas : m.is_castle = false := (hm.epOk hep).1
  unfold makeBoard
  simp only [hcas, hep, Bool.false_eq_true, if_false, if_true]
  cases hpr : m.is_pawn_promotion with
  | true =>
    refine ⟨String.mk [colorOf m.piece_moved] ++ "Q", ?_⟩
    simp only [hpr, if_true]
    rw [setTile_setTile_eq (boardShape_setTile hsh hm.srange "--") hm.erange _ _]
  | false =>
    refine ⟨m.piece_moved, ?_⟩
    simp only [hpr, Bool.false_eq_true, if_false]

/-- Undoing an en-passant capture restores the board. -/
theorem undo_make_board_ep (p : Position) (m : Move) (hsh : BoardShape p.board)
    (hm : MoveOK p m) (hep : m.is_en_passant = true) :
    undoBoard2 (undoBoard1 (makeBoard p.board m) m) m = p.board := by
  obtain ⟨hcas, _, habs, hcne, hbE, hbG⟩ := hm.epOk hep
  obtain ⟨X, hX⟩ := makeBoard_ep p m hsh hm hep
  have hrne : ¬ m.start_row = m.end_row := by omega
  have hG : onBoard m.start_row m.end_col :=
    ⟨hm.srange.1, hm.srange.2.1, hm.erange.2.2.1, hm.erange.2.2.2⟩
  have hsh1 : BoardShape (setTile p.board m.start_row m.start_col "--") :=
    boardShape_setTile hsh hm.srange "--"
  have hsh2 : BoardShape (setTile (setTile p.board m.start_row m.start_col "--")
      m.end_row m.end_col X) := boardShape_setTile hsh1 hm.erange X
  unfold undoBoard2 undoBoard1
  simp only [hcas, hep, Bool.false_eq_true, if_false, if_true, hX]
  -- collapse the two writes at the end square
  rw [setTile_setTile_eq (boardShape_setTile (boardShape_setTile hsh2 hG "--") hm.srange
    m.piece_moved) hm.erange]
  -- move the start-square restoration past the pawn-square clear
  rw [setTile_comm hsh2 hG hm.srange (by intro h; exact hcne h.2.symm)]
  -- move the pawn-square clear past the end-square clear
  rw [setTile_comm (boardShape_setTile hsh2 hm.srange m.piece_moved) hG hm.erange
    (by intro h; exact hrne h.1)]
  -- move the start-square restoration into the make layers and collapse
  rw [setTile_comm hsh1 hm.erange hm.srange
    (by intro h; exact hm.sne ⟨h.1.symm, h.2.symm⟩)]
  rw [setTile_setTile_eq hsh hm.srange]
  rw [hm.pmEq, setTile_getTile_self hsh hm.srange]
  -- collapse the two writes at the end square and restore it
  rw [setTile_setTile_eq hsh hm.erange]
  rw [← hbE, setTile_getTile_self hsh hm.erange]
  -- restore the captured pawn's square
  rw [setTile_setTile_eq hsh hG]
  rw [← hbG, setTile_getTile_self hsh hG]

/-- For a castle the board after `make_move` is the plain two-square
rewrite followed by the rook shuffle of the matching wing. -/
theorem makeBoard_castle (p : Position) (m : Move) (hsh : BoardShape p.board)
    (hm : MoveOK p m) (hcas : m.is_castle = true) :
    ∃ X, makeBoard p.board m =
      (if m.end_col - m.start_col = 2 then
        setTile (setTile
            (setTile (setTile p.board m.start_row m.start_col "--") m.end_row m.end_col X)
            m.end_row (m.end_col - 1)
            (getTile (setTile (setTile p.board m.start_row m.start_col "--")
              m.end_row m.end_col X) m.end_row (m.end_col + 1)))
          m.end_row (m.end_col + 1) "--"
      else
        setTile (setTile
            (setTile (setTile p.board m.start_row m.start_col "--") m.end_row m.end_col X)
            m.end_row (m.end_col + 1)
            (getTile (setTile (setTile p.board m.start_row m.start_col "--")
              m.end_row m.end_col X) m.end_row (m.end_col - 2)))
          m.end_row (m.end_col - 2) "--") := by
  have hepf : m.is_en_passant = false := (hm.castleOk hcas).1
  unfold makeBoard
  simp only [hcas, hepf, Bool.false_eq_true, if_false, if_true]
  cases hpr : m.is_pawn_promotion with
  | true =>
    refine ⟨String.mk [colorOf m.piece_moved] ++ "Q", ?_⟩
    simp only [hpr, if_true,
      setTile_setTile_eq (boardShape_setTile hsh hm.srange "--") hm.erange]
  | false =>
    exact ⟨m.piece_moved, by simp only [hpr, Bool.false_eq_true, if_false]⟩

/-- Undoing a castle restores the board (both wings). -/
theorem undo_make_board_castle (p : Position) (m : Move) (hsh : BoardShape p.board)
    (hm : MoveOK p m) (hcas : m.is_castle = true) :
    undoBoard2 (undoBoard1 (makeBoard p.board m) m) m = p.board := by
  obtain ⟨hepf, her, hsc, hside⟩ := hm.castleOk hcas
  obtain ⟨X, hX⟩ := makeBoard_castle p m hsh hm hcas
  have hsr0 := hm.srange.1
  have hsr1 := hm.srange.2.1
  have hS : onBoard m.start_row 4 := ⟨hsr0, hsr1, by omega, by omega⟩
  have hpm : m.piece_moved = getTile p.board m.start_row 4 := by
    rw [hm.pmEq, hsc]
  rcases hside with ⟨hek, hb5, hb6⟩ | ⟨hek, hb1, hb2, hb3⟩
  · -- king side: start (r,4), end (r,6), rook from (r,7) to (r,5)
    have hE : onBoard m.start_row 6 := ⟨hsr0, hsr1, by omega, by omega⟩
    have h5 : onBoard m.start_row 5 := ⟨hsr0, hsr1, by omega, by omega⟩
    have h7 : onBoard m.start_row 7 := ⟨hsr0, hsr1, by omega, by omega⟩
    have hcap : m.piece_captured = getTile p.board m.start_row 6 := by
      rw [hm.capEq hepf, her, hek]
    rw [hX, if_pos (by omega : m.end_col - m.start_col = 2)]
    unfold undoBoard2 undoBoard1
    simp only [hepf, Bool.false_eq_true, if_false, hcas, if_true]
    rw [if_pos (by omega : m.end_col - m.start_col = 2)]
    rw [her, hek, hsc]
    simp only [show (6 : Int) - 1 = 5 from by norm_num, show (6 : Int) + 1 = 7 from by norm_num]
    have hsh1 : BoardShape (setTile p.board m.start_row 4 "--") :=
      boardShape_setTile hsh hS "--"
    have hsh2 : BoardShape (setTile (setTile p.board m.start_row 4 "--") m.start_row 6 X) :=
      boardShape_setTile hsh1 hE X
    -- the rook the shuffle copied is the corner rook of the original board
    rw [getTile_setTile_ne hsh1 hE h7 (by omega), getTile_setTile_ne hsh hS h7 (by omega)]
    have hsh3 : BoardShape (setTile (setTile (setTile p.board m.start_row 4 "--")
        m.start_row 6 X) m.start_row 5 (getTile p.board m.start_row 7)) :=
      boardShape_setTile hsh2 h5 _
    have hsh4 : BoardShape (setTile (setTile (setTile (setTile p.board m.start_row 4 "--")
        m.start_row 6 X) m.start_row 5 (getTile p.board m.start_row 7)) m.start_row 7 "--") :=
      boardShape_setTile hsh3 h7 "--"
    -- push the start-square restoration inward and collapse it with the clear
    rw [setTile_comm hsh3 h7 hS (by omega)]
    rw [setTile_comm hsh2 h5 hS (by omega)]
    rw [setTile_comm hsh1 hE hS (by omega)]
    rw [setTile_setTile_eq hsh hS, hpm, setTile_getTile_self hsh hS]
    -- push the end-square restoration inward and collapse it with its write
    have gsh1 : BoardShape (setTile p.board m.start_row 6 X) :=
      boardShape_setTile hsh hE X
    have gsh2 : BoardShape (setTile (setTile p.board m.start_row 6 X) m.start_row 5
        (getTile p.board m.start_row 7)) := boardShape_setTile gsh1 h5 _
    rw [setTile_comm gsh2 h7 hE (by omega)]
    rw [setTile_comm gsh1 h5 hE (by omega)]
    rw [setTile_setTile_eq hsh hE, hcap, setTile_getTile_self hsh hE]
    -- the rook read back by the undo shuffle
    have ush1 : BoardShape (setTile p.board m.start_row 5 (getTile p.board m.start_row 7)) :=
      boardShape_setTile hsh h5 _
    rw [getTile_setTile_ne ush1 h7 h5 (by omega), getTile_setTile_eq hsh h5]
    -- finish square by square
    apply board_ext hsh
    · exact boardShape_setTile (boardShape_setTile (boardShape_setTile ush1 h7 "--") h7 _) h5 "--"
    · intro r c hob
      by_cases hq5 : r = m.start_row ∧ c = 5
      · obtain ⟨rfl, rfl⟩ := hq5
        rw [getTile_setTile_eq (boardShape_setTile (boardShape_setTile ush1 h7 "--") h7 _) h5,
          hb5]
      · by_cases hq7 : r = m.start_row ∧ c = 7
        · obtain ⟨rfl, rfl⟩ := hq7
          rw [getTile_setTile_ne (boardShape_setTile (boardShape_setTile ush1 h7 "--") h7 _)
              h5 h7 (by omega),
            getTile_setTile_eq (boardShape_setTile ush1 h7 "--") h7]
        · rw [getTile_setTile_ne (boardShape_setTile (boardShape_setTile ush1 h7 "--") h7 _)
              h5 hob (by tauto),
            getTile_setTile_ne (boardShape_setTile ush1 h7 "--") h7 hob (by tauto),
            getTile_setTile_ne ush1 h7 hob (by tauto),
            getTile_setTile_ne hsh h5 hob (by tauto)]
  · -- queen side: start (r,4), end (r,2), rook from (r,0) to (r,3)
    have hE : onBoard m.start_row 2 := ⟨hsr0, hsr1, by omega, by omega⟩
    have h3 : onBoard m.start_row 3 := ⟨hsr0, hsr1, by omega, by omega⟩
    have h0 : onBoard m.start_row 0 := ⟨hsr0, hsr1, by omega, by omega⟩
    have hcap : m.piece_captured = getTile p.board m.start_row 2 := by
      rw [hm.capEq hepf, her, hek]
    rw [hX, if_neg (by omega : ¬ m.end_col - m.start_col = 2)]
    unfold undoBoard2 undoBoard1
    simp only [hepf, Bool.false_eq_true, if_false, hcas, if_true]
    rw [if_neg (by omega : ¬ m.end_col - m.start_col = 2)]
    rw [her, hek, hsc]
    simp only [show (2 : Int) + 1 = 3 from by norm_num, show (2 : Int) - 2 = 0 from by norm_num]
    have hsh1 : BoardShape (setTile p.board m.start_row 4 "--") :=
      boardShape_setTile hsh hS "--"
    have hsh2 : BoardShape (setTile (setTile p.board m.start_row 4 "--") m.start_row 2 X) :=
      boardShape_setTile hsh1 hE X
    rw [getTile_setTile_ne hsh1 hE h0 (by omega), getTile_setTile_ne hsh hS h0 (by omega)]
    have hsh3 : BoardShape (setTile (setTile (setTile p.board m.start_row 4 "--")
        m.start_row 2 X) m.start_row 3 (getTile p.board m.start_row 0)) :=
      boardShape_setTile hsh2 h3 _
    have hsh4 : BoardShape (setTile (setTile (setTile (setTile p.board m.start_row 4 "--")
        m.start_row 2 X) m.start_row 3 (getTile p.board m.start_row 0)) m.start_row 0 "--") :=
      boardShape_setTile hsh3 h0 "--"
    rw [setTile_comm hsh3 h0 hS (by omega)]
    rw [setTile_comm hsh2 h3 hS (by omega)]
    rw [setTile_comm hsh1 hE hS (by omega)]
    rw [setTile_setTile_eq hsh hS, hpm, setTile_getTile_self hsh hS]
    have gsh1 : BoardShape (setTile p.board m.start_row 2 X) :=
      boardShape_setTile hsh hE X
    have gsh2 : BoardShape (setTile (setTile p.board m.start_row 2 X) m.start_row 3
        (getTile p.board m.start_row 0)) := boardShape_setTile gsh1 h3 _
    rw [setTile_comm gsh2 h0 hE (by omega)]
    rw [setTile_comm gsh1 h3 hE (by omega)]
    rw [setTile_setTile_eq hsh hE, hcap, setTile_getTile_self hsh hE]
    have ush1 : BoardShape (setTile p.board m.start_row 3 (getTile p.board m.start_row 0)) :=
      boardShape_setTile hsh h3 _
    rw [getTile_setTile_ne ush1 h0 h3 (by omega), getTile_setTile_eq hsh h3]
    apply board_ext hsh
    · exact boardShape_setTile (boardShape_setTile (boardShape_setTile ush1 h0 "--") h0 _) h3 "--"
    · intro r c hob
      by_cases hq3 : r = m.start_row ∧ c = 3
      · obtain ⟨rfl, rfl⟩ := hq3
        rw [getTile_setTile_eq (boardShape_setTile (boardShape_setTile ush1 h0 "--") h0 _) h3,
          hb3]
      · by_cases hq0 : r = m.start_row ∧ c = 0
        · obtain ⟨rfl, rfl⟩ := hq0
          rw [getTile_setTile_ne (boardShape_setTile (boardShape_setTile ush1 h0 "--") h0 _)
              h3 h0 (by omega),
            getTile_setTile_eq (boardShape_setTile ush1 h0 "--") h0]
        · rw [getTile_setTile_ne (boardShape_setTile (boardShape_setTile ush1 h0 "--") h0 _)
              h3 hob (by tauto),
            getTile_setTile_ne (boardShape_setTile ush1 h0 "--") h0 hob (by tauto),
            getTile_setTile_ne ush1 h0 hob (by tauto),
            getTile_setTile_ne hsh h3 hob (by tauto)]

/-! ## Every generated move is coherent with its position -/

theorem mem_dictInsert {d : MoveDict} {k0 : Int} {v : Move} {k : Int} {x : Move}
    (h : (k, x) ∈ dictInsert d k0 v) : (k, x) ∈ d ∨ x = v := by
  unfold dictInsert at h
  split at h
  · obtain ⟨q, hq, he⟩ := List.mem_map.mp h
    split at he
    · injection he with h1 h2
      exact Or.inr h2.symm
    · exact Or.inl (he ▸ hq)
  · rcases List.mem_append.mp h with h1 | h1
    · exact Or.inl h1
    · simp only [List.mem_singleton] at h1
      injection h1 with h2 h3
      exact Or.inr h3

theorem mem_addMove {d : MoveDict} {m : Move} {k : Int} {x : Move}
    (h : (k, x) ∈ addMove d m) : (k, x) ∈ d ∨ x = m :=
  mem_dictInsert h

/-- Trace a membership in the move part of a fold back to the initial
accumulator or to one of the steps. -/
theorem foldl_mem_proj {α β : Type} (proj : β → MoveDict) (P : Move → Prop)
    (step : β → α → β) :
    ∀ (l : List α) (init : β),
      (∀ b a, a ∈ l → ∀ k x, (k, x) ∈ proj (step b a) → (k, x) ∈ proj b ∨ P x) →
      ∀ k x, (k, x) ∈ proj (l.foldl step init) → (k, x) ∈ proj init ∨ P x
  | [], _, _, _, _, h => Or.inl h
  | a :: rest, init, hstep, k, x, h => by
    rcases foldl_mem_proj proj P step rest (step init a)
        (fun b a2 ha2 => hstep b a2 (List.mem_cons_of_mem a ha2)) k x h with h1 | h1
    · exact hstep init a (List.mem_cons_self a rest) k x h1
    · exact Or.inr h1

theorem boardShape_len_int {b : Board} (hb : BoardShape b) : ((b.length : Nat) : Int) = 8 := by
  rw [hb.1]; rfl

theorem boardShape_row0_len_int {b : Board} (hb : BoardShape b) :
    (((pyNth [] b 0).length : Nat) : Int) = 8 := by
  rw [boardShape_row_length hb (by omega) (by omega)]; rfl

/-- Every move added by `__get_moves_from_tiles` starts at `(row, col)`
and lands on one of the offered in-range tiles. -/
theorem get_moves_from_tiles_mem (s : Position) (hsh : BoardShape s.board)
    (pins : List PinRec) (row col : Int) (moves : MoveDict) (tiles : List (Int × Int))
    {k : Int} {x : Move}
    (h : (k, x) ∈ (get_moves_from_tiles s pins row col moves tiles).2) :
    (k, x) ∈ moves ∨ ∃ t ∈ tiles, onBoard t.1 t.2 ∧
      x = Move.init (row, col) t s.board false false := by
  unfold get_moves_from_tiles at h
  refine foldl_mem_proj id (fun y => ∃ t ∈ tiles, onBoard t.1 t.2 ∧
    y = Move.init (row, col) t s.board false false) _ tiles moves ?_ k x h
  intro ms t ht k2 x2 hmem
  dsimp only [id] at hmem ⊢
  split at hmem
  · rename_i hbounds
    rw [boardShape_len_int hsh, boardShape_row0_len_int hsh] at hbounds
    split at hmem
    · split at hmem
      · rcases mem_addMove hmem with h2 | h2
        · exact Or.inl h2
        · exact Or.inr ⟨t, ht, ⟨hbounds.1, hbounds.2.1, hbounds.2.2.1, hbounds.2.2.2⟩, h2⟩
      · have halt : (k2, x2) ∈ addMove ms (Move.init (row, col) t s.board false false) ∨
            (k2, x2) ∈ ms := by
          split at hmem
          · split at hmem
            · exact Or.inl hmem
            · exact Or.inr hmem
          · split at hmem
            · exact Or.inl hmem
            · exact Or.inr hmem
        rcases halt with h2 | h2
        · rcases mem_addMove h2 with h3 | h3
          · exact Or.inl h3
          · exact Or.inr ⟨t, ht, ⟨hbounds.1, hbounds.2.1, hbounds.2.2.1, hbounds.2.2.2⟩, h3⟩
        · exact Or.inl h2
    · exact Or.inl hmem
  · exact Or.inl hmem

/-- Every move added by one sliding ray starts at `(row, col)` and lands
`i` steps along the direction, on the board. -/
theorem dirRay_mem (board : Board) (hsh : BoardShape board) (pp : Bool) (pd : Int × Int)
    (enemy : Char) (row col : Int) (d : Int × Int) :
    ∀ (l : List Int) (ms : MoveDict) (k : Int) (x : Move),
      (k, x) ∈ dirRay board pp pd enemy row col d l ms →
      (k, x) ∈ ms ∨ ∃ i ∈ l, onBoard (row + d.1 * i) (col + d.2 * i) ∧
        x = Move.init (row, col) (row + d.1 * i, col + d.2 * i) board false false
  | [], _, _, _, h => Or.inl h
  | i :: rest, ms, k, x, h => by
    rw [dirRay] at h
    dsimp only at h
    split at h
    · rename_i hbounds
      rw [boardShape_len_int hsh, boardShape_row0_len_int hsh] at hbounds
      have hob : onBoard (row + d.1 * i) (col + d.2 * i) :=
        ⟨hbounds.1, hbounds.2.1, hbounds.2.2.1, hbounds.2.2.2⟩
      split at h
      · split at h
        · rcases dirRay_mem board hsh pp pd enemy row col d rest _ k x h with
            h1 | ⟨j, hj, hb2, he⟩
          · rcases mem_addMove h1 with h2 | h2
            · exact Or.inl h2
            · exact Or.inr ⟨i, List.mem_cons_self i rest, hob, h2⟩
          · exact Or.inr ⟨j, List.mem_cons_of_mem _ hj, hb2, he⟩
        · split at h
          · rcases mem_addMove h with h2 | h2
            · exact Or.inl h2
            · exact Or.inr ⟨i, List.mem_cons_self i rest, hob, h2⟩
          · exact Or.inl h
      · rcases dirRay_mem board hsh pp pd enemy row col d rest ms k x h with
          h1 | ⟨j, hj, hb2, he⟩
        · exact Or.inl h1
        · exact Or.inr ⟨j, List.mem_cons_of_mem _ hj, hb2, he⟩
    · exact Or.inl h

/-- Every move added by `__get_moves_from_directions` starts at `(row, col)`
and lands at least one step along one of the offered directions. -/
theorem get_moves_from_directions_mem (s : Position) (hsh : BoardShape s.board)
    (pins : List PinRec) (row col : Int) (moves : MoveDict)
    (directions : List (Int × Int)) {k : Int} {x : Move}
    (h : (k, x) ∈ (get_moves_from_directions s pins row col moves directions).2) :
    (k, x) ∈ moves ∨ ∃ d ∈ directions, ∃ i : Int, 1 ≤ i ∧
      onBoard (row + d.1 * i) (col + d.2 * i) ∧
      x = Move.init (row, col) (row + d.1 * i, col + d.2 * i) s.board false false := by
  unfold get_moves_from_directions at h
  refine foldl_mem_proj id (fun y => ∃ d ∈ directions, ∃ i : Int, 1 ≤ i ∧
    onBoard (row + d.1 * i) (col + d.2 * i) ∧
    y = Move.init (row, col) (row + d.1 * i, col + d.2 * i) s.board false false)
    _ directions moves ?_ k x h
  intro ms d hd k2 x2 hmem
  dsimp only [id] at hmem ⊢
  rcases dirRay_mem s.board hsh _ _ _ row col d _ ms k2 x2 hmem with h1 | ⟨i, hi, hob, he⟩
  · exact Or.inl h1
  · exact Or.inr ⟨d, hd, i, (mem_pyRange hi).1, hob, he⟩

theorem mem_snd_ite {c : Prop} [inst : Decidable c] {p : List PinRec} {d1 d2 : MoveDict}
    {k : Int} {x : Move} (h : (k, x) ∈ (if c then (p, d1) else (p, d2)).2) :
    (k, x) ∈ d1 ∨ (k, x) ∈ d2 := by
  split at h
  · exact Or.inl h
  · exact Or.inr h

/-- Every move added by `__get_pawn_moves` for white is a single push onto
an empty square, a double push from the start rank over empty squares, an
in-range diagonal capture, or an en-passant capture onto the target. -/
theorem get_pawn_moves_mem_w (s : Position) (hsh : BoardShape s.board)
    (hwtm : s.white_to_move = true) (pins : List PinRec) (row col : Int)
    (moves : MoveDict) {k : Int} {x : Move}
    (h : (k, x) ∈ (get_pawn_moves s pins row col moves).2) :
    (k, x) ∈ moves ∨
    (x = Move.init (row, col) (row + -1, col) s.board false false ∧
      getTile s.board (row + -1) col = "--") ∨
    (x = Move.init (row, col) (row + 2 * -1, col) s.board false false ∧ row = 6 ∧
      getTile s.board (row + -1) col = "--" ∧
      getTile s.board (row + 2 * -1) col = "--") ∨
    (∃ lr : Int, (lr = -1 ∨ lr = 1) ∧
      x = Move.init (row, col) (row + -1, col + lr) s.board false false ∧
      0 ≤ col + lr ∧ col + lr < 8) ∨
    (∃ lr : Int, (lr = -1 ∨ lr = 1) ∧
      x = Move.init (row, col) (row + -1, col + lr) s.board true false ∧
      (row + -1, col + lr) = s.en_passant_possible) := by
  unfold get_pawn_moves at h
  simp only [hwtm, if_true, if_false, Bool.false_eq_true] at h
  cases hscan : findPinFromEnd pins row col with
  | none =>
    rw [hscan] at h
    dsimp only at h
    refine Or.elim (foldl_mem_proj Prod.snd (fun y =>
        (∃ lr : Int, (lr = -1 ∨ lr = 1) ∧
          y = Move.init (row, col) (row + -1, col + lr) s.board false false ∧
          0 ≤ col + lr ∧ col + lr < 8) ∨
        (∃ lr : Int, (lr = -1 ∨ lr = 1) ∧
          y = Move.init (row, col) (row + -1, col + lr) s.board true false ∧
          (row + -1, col + lr) = s.en_passant_possible))
        _ [-1, 1] _ ?_ k x h) (fun h1 => ?_) (fun h1 => ?_)
    · intro b lr hlr k2 x2 hm
      obtain ⟨p2, m2⟩ := b
      simp only [List.mem_cons, List.mem_singleton, List.not_mem_nil, or_false] at hlr
      dsimp only at hm
      split at hm
      · split at hm
        · rename_i hcap
          rcases mem_addMove hm with h2 | h2
          · exact Or.inl h2
          · refine Or.inr (Or.inl ⟨lr, hlr, h2, hcap.1, ?_⟩)
            have h9 := hcap.2.1
            rwa [boardShape_len_int hsh] at h9
        · split at hm
          · rename_i hep
            rcases mem_snd_ite hm with h2 | h2
            · rcases mem_addMove h2 with h3 | h3
              · exact Or.inl h3
              · exact Or.inr (Or.inr ⟨lr, hlr, h3, hep⟩)
            · exact Or.inl h2
          · exact Or.inl hm
      · exact Or.inl hm
    · split at h1
      · rename_i hfw1
        split at h1
        · split at h1
          · rename_i hdbl
            rcases mem_addMove h1 with h2 | h2
            · rcases mem_addMove h2 with h3 | h3
              · exact Or.inl h3
              · exact Or.inr (Or.inl ⟨h3, hfw1⟩)
            · exact Or.inr (Or.inr (Or.inl ⟨h2, hdbl.1, hfw1, hdbl.2⟩))
          · rcases mem_addMove h1 with h2 | h2
            · exact Or.inl h2
            · exact Or.inr (Or.inl ⟨h2, hfw1⟩)
        · exact Or.inl h1
      · exact Or.inl h1
    · exact Or.inr (Or.inr (Or.inr h1))
  | some v =>
    rw [hscan] at h
    dsimp only at h
    refine Or.elim (foldl_mem_proj Prod.snd (fun y =>
        (∃ lr : Int, (lr = -1 ∨ lr = 1) ∧
          y = Move.init (row, col) (row + -1, col + lr) s.board false false ∧
          0 ≤ col + lr ∧ col + lr < 8) ∨
        (∃ lr : Int, (lr = -1 ∨ lr = 1) ∧
          y = Move.init (row, col) (row + -1, col + lr) s.board true false ∧
          (row + -1, col + lr) = s.en_passant_possible))
        _ [-1, 1] _ ?_ k x h) (fun h1 => ?_) (fun h1 => ?_)
    · intro b lr hlr k2 x2 hm
      obtain ⟨p2, m2⟩ := b
      simp only [List.mem_cons, List.mem_singleton, List.not_mem_nil, or_false] at hlr
      dsimp only at hm
      split at hm
      · split at hm
        · rename_i hcap
          rcases mem_addMove hm with h2 | h2
          · exact Or.inl h2
          · refine Or.inr (Or.inl ⟨lr, hlr, h2, hcap.1, ?_⟩)
            have h9 := hcap.2.1
            rwa [boardShape_len_int hsh] at h9
        · split at hm
          · rename_i hep
            rcases mem_snd_ite hm with h2 | h2
            · rcases mem_addMove h2 with h3 | h3
              · exact Or.inl h3
              · exact Or.inr (Or.inr ⟨lr, hlr, h3, hep⟩)
            · exact Or.inl h2
          · exact Or.inl hm
      · exact Or.inl hm
    · split at h1
      · rename_i hfw1
        split at h1
        · split at h1
          · rename_i hdbl
            rcases mem_addMove h1 with h2 | h2
            · rcases mem_addMove h2 with h3 | h3
              · exact Or.inl h3
              · exact Or.inr (Or.inl ⟨h3, hfw1⟩)
            · exact Or.inr (Or.inr (Or.inl ⟨h2, hdbl.1, hfw1, hdbl.2⟩))
          · rcases mem_addMove h1 with h2 | h2
            · exact Or.inl h2
            · exact Or.inr (Or.inl ⟨h2, hfw1⟩)
        · exact Or.inl h1
      · exact Or.inl h1
    · exact Or.inr (Or.inr (Or.inr h1))

/-- Every move added by `__get_pawn_moves` for black is a single push onto
an empty square, a double push from the start rank over empty squares, an
in-range diagonal capture, or an en-passant capture onto the target. -/
theorem get_pawn_moves_mem_b (s : Position) (hsh : BoardShape s.board)
    (hwtm : s.white_to_move = false) (pins : List PinRec) (row col : Int)
    (moves : MoveDict) {k : Int} {x : Move}
    (h : (k, x) ∈ (get_pawn_moves s pins row col moves).2) :
    (k, x) ∈ moves ∨
    (x = Move.init (row, col) (row + 1, col) s.board false false ∧
      getTile s.board (row + 1) col = "--") ∨
    (x = Move.init (row, col) (row + 2 * 1, col) s.board false false ∧ row = 1 ∧
      getTile s.board (row + 1) col = "--" ∧
      getTile s.board (row + 2 * 1) col = "--") ∨
    (∃ lr : Int, (lr = -1 ∨ lr = 1) ∧
      x = Move.init (row, col) (row + 1, col + lr) s.board false false ∧
      0 ≤ col + lr ∧ col + lr < 8) ∨
    (∃ lr : Int, (lr = -1 ∨ lr = 1) ∧
      x = Move.init (row, col) (row + 1, col + lr) s.board true false ∧
      (row + 1, col + lr) = s.en_passant_possible) := by
  unfold get_pawn_moves at h
  simp only [hwtm, if_true, if_false, Bool.false_eq_true] at h
  cases hscan : findPinFromEnd pins row col with
  | none =>
    rw [hscan] at h
    dsimp only at h
    refine Or.elim (foldl_mem_proj Prod.snd (fun y =>
        (∃ lr : Int, (lr = -1 ∨ lr = 1) ∧
          y = Move.init (row, col) (row + 1, col + lr) s.board false false ∧
          0 ≤ col + lr ∧ col + lr < 8) ∨
        (∃ lr : Int, (lr = -1 ∨ lr = 1) ∧
          y = Move.init (row, col) (row + 1, col + lr) s.board true false ∧
          (row + 1, col + lr) = s.en_passant_possible))
        _ [-1, 1] _ ?_ k x h) (fun h1 => ?_) (fun h1 => ?_)
    · intro b lr hlr k2 x2 hm
      obtain ⟨p2, m2⟩ := b
      simp only [List.mem_cons, List.mem_singleton, List.not_mem_nil, or_false] at hlr
      dsimp only at hm
      split at hm
      · split at hm
        · rename_i hcap
          rcases mem_addMove hm with h2 | h2
          · exact Or.inl h2
          · refine Or.inr (Or.inl ⟨lr, hlr, h2, hcap.1, ?_⟩)
            have h9 := hcap.2.1
            rwa [boardShape_len_int hsh] at h9
        · split at hm
          · rename_i hep
            rcases mem_snd_ite hm with h2 | h2
            · rcases mem_addMove h2 with h3 | h3
              · exact Or.inl h3
              · exact Or.inr (Or.inr ⟨lr, hlr, h3, hep⟩)
            · exact Or.inl h2
          · exact Or.inl hm
      · exact Or.inl hm
    · split at h1
      · rename_i hfw1
        split at h1
        · split at h1
          · rename_i hdbl
            rcases mem_addMove h1 with h2 | h2
            · rcases mem_addMove h2 with h3 | h3
              · exact Or.inl h3
              · exact Or.inr (Or.inl ⟨h3, hfw1⟩)
            · exact Or.inr (Or.inr (Or.inl ⟨h2, hdbl.1, hfw1, hdbl.2⟩))
          · rcases mem_addMove h1 with h2 | h2
            · exact Or.inl h2
            · exact Or.inr (Or.inl ⟨h2, hfw1⟩)
        · exact Or.inl h1
      · exact Or.inl h1
    · exact Or.inr (Or.inr (Or.inr h1))
  | some v =>
    rw [hscan] at h
    dsimp only at h
    refine Or.elim (foldl_mem_proj Prod.snd (fun y =>
        (∃ lr : Int, (lr = -1 ∨ lr = 1) ∧
          y = Move.init (row, col) (row + 1, col + lr) s.board false false ∧
          0 ≤ col + lr ∧ col + lr < 8) ∨
        (∃ lr : Int, (lr = -1 ∨ lr = 1) ∧
          y = Move.init (row, col) (row + 1, col + lr) s.board true false ∧
          (row + 1, col + lr) = s.en_passant_possible))
        _ [-1, 1] _ ?_ k x h) (fun h1 => ?_) (fun h1 => ?_)
    · intro b lr hlr k2 x2 hm
      obtain ⟨p2, m2⟩ := b
      simp only [List.mem_cons, List.mem_singleton, List.not_mem_nil, or_false] at hlr
      dsimp only at hm
      split at hm
      · split at hm
        · rename_i hcap
          rcases mem_addMove hm with h2 | h2
          · exact Or.inl h2
          · refine Or.inr (Or.inl ⟨lr, hlr, h2, hcap.1, ?_⟩)
            have h9 := hcap.2.1
            rwa [boardShape_len_int hsh] at h9
        · split at hm
          · rename_i hep
            rcases mem_snd_ite hm with h2 | h2
            · rcases mem_addMove h2 with h3 | h3
              · exact Or.inl h3
              · exact Or.inr (Or.inr ⟨lr, hlr, h3, hep⟩)
            · exact Or.inl h2
          · exact Or.inl hm
      · exact Or.inl hm
    · split at h1
      · rename_i hfw1
        split at h1
        · split at h1
          · rename_i hdbl
            rcases mem_addMove h1 with h2 | h2
            · rcases mem_addMove h2 with h3 | h3
              · exact Or.inl h3
              · exact Or.inr (Or.inl ⟨h3, hfw1⟩)
            · exact Or.inr (Or.inr (Or.inl ⟨h2, hdbl.1, hfw1, hdbl.2⟩))
          · rcases mem_addMove h1 with h2 | h2
            · exact Or.inl h2
            · exact Or.inr (Or.inl ⟨h2, hfw1⟩)
        · exact Or.inl h1
      · exact Or.inl h1
    · exact Or.inr (Or.inr (Or.inr h1))

/-- Every move added by `__get_king_moves` starts at `(row, col)` and lands
on an in-range neighbouring tile. -/
theorem get_king_moves_mem (s : Position) (hsh : BoardShape s.board)
    (row col : Int) (moves : MoveDict) {k : Int} {x : Move}
    (hmem : (k, x) ∈ get_king_moves s row col moves) :
    (k, x) ∈ moves ∨ ∃ t ∈ ([(row, col + 1), (row - 1, col + 1), (row - 1, col),
      (row - 1, col - 1), (row, col - 1), (row + 1, col - 1), (row + 1, col),
      (row + 1, col + 1)] : List (Int × Int)), onBoard t.1 t.2 ∧
      x = Move.init (row, col) t s.board false false := by
  unfold get_king_moves at hmem
  refine foldl_mem_proj id (fun y => ∃ t ∈ ([(row, col + 1), (row - 1, col + 1), (row - 1, col),
      (row - 1, col - 1), (row, col - 1), (row + 1, col - 1), (row + 1, col),
      (row + 1, col + 1)] : List (Int × Int)), onBoard t.1 t.2 ∧
      y = Move.init (row, col) t s.board false false) _ _ moves ?_ k x hmem
  intro ms t ht k2 x2 hm
  dsimp only [id] at hm ⊢
  split at hm
  · rename_i hbounds
    rw [boardShape_len_int hsh, boardShape_row0_len_int hsh] at hbounds
    have halt : (k2, x2) ∈ addMove ms (Move.init (row, col) t s.board false false) ∨
        (k2, x2) ∈ ms := by
      split at hm <;> first
        | exact Or.inl hm
        | exact Or.inr hm
        | (split at hm <;> first
            | exact Or.inl hm
            | exact Or.inr hm
            | (split at hm <;> first
                | exact Or.inl hm
                | exact Or.inr hm
                | (split at hm <;> first
                    | exact Or.inl hm
                    | exact Or.inr hm)))
    rcases halt with h2 | h2
    · rcases mem_addMove h2 with h3 | h3
      · exact Or.inl h3
      · exact Or.inr ⟨t, ht, ⟨hbounds.1, hbounds.2.1, hbounds.2.2.1, hbounds.2.2.2⟩, h3⟩
    · exact Or.inl h2
  · exact Or.inl hm

/-- Every move added by `__get_king_side_castle_moves` is the two-square
king move over the two empty squares beside it. -/
theorem get_king_side_castle_moves_mem (s : Position) (pins : List PinRec)
    (row col : Int) (moves : MoveDict) {k : Int} {x : Move}
    (hmem : (k, x) ∈ (get_king_side_castle_moves s pins row col moves).2) :
    (k, x) ∈ moves ∨
    (x = Move.init (row, col) (row, col + 2) s.board false true ∧
      getTile s.board row (col + 1) = "--" ∧ getTile s.board row (col + 2) = "--") := by
  unfold get_king_side_castle_moves at hmem
  split at hmem
  · rename_i hempty
    rcases h1 : tile_under_attack s pins row (col + 1) with ⟨p1, a1⟩
    rw [h1] at hmem
    dsimp only at hmem
    split at hmem
    · rcases h2 : tile_under_attack s p1 row (col + 2) with ⟨p2, a2⟩
      rw [h2] at hmem
      dsimp only at hmem
      split at hmem
      · rcases mem_addMove hmem with h3 | h3
        · exact Or.inl h3
        · exact Or.inr ⟨h3, hempty.1, hempty.2⟩
      · exact Or.inl hmem
    · exact Or.inl hmem
  · exact Or.inl hmem

/-- Every move added by `__get_queen_side_castle_moves` is the two-square
king move over the three empty squares beside it. -/
theorem get_queen_side_castle_moves_mem (s : Position) (pins : List PinRec)
    (row col : Int) (moves : MoveDict) {k : Int} {x : Move}
    (hmem : (k, x) ∈ (get_queen_side_castle_moves s pins row col moves).2) :
    (k, x) ∈ moves ∨
    (x = Move.init (row, col) (row, col - 2) s.board false true ∧
      getTile s.board row (col - 1) = "--" ∧ getTile s.board row (col - 2) = "--" ∧
      getTile s.board row (col - 3) = "--") := by
  unfold get_queen_side_castle_moves at hmem
  split at hmem
  · rename_i hempty
    rcases h1 : tile_under_attack s pins row (col - 1) with ⟨p1, a1⟩
    rw [h1] at hmem
    dsimp only at hmem
    split at hmem
    · rcases h2 : tile_under_attack s p1 row (col - 2) with ⟨p2, a2⟩
      rw [h2] at hmem
      dsimp only at hmem
      split at hmem
      · rcases mem_addMove hmem with h3 | h3
        · exact Or.inl h3
        · exact Or.inr ⟨h3, hempty.1, hempty.2.1, hempty.2.2⟩
      · exact Or.inl hmem
    · exact Or.inl hmem
  · exact Or.inl hmem

/-- Every move added by `__get_castle_moves` is a guarded king-side or
queen-side castle. -/
theorem get_castle_moves_mem (s : Position) (pins : List PinRec) (row col : Int)
    (moves : MoveDict) {k : Int} {x : Move}
    (hmem : (k, x) ∈ (get_castle_moves s pins row col moves).2) :
    (k, x) ∈ moves ∨
    (((s.white_to_move = true ∧ s.current_castling_rights.wks = true) ∨
      (¬s.white_to_move = true ∧ s.current_castling_rights.bks = true)) ∧
      x = Move.init (row, col) (row, col + 2) s.board false true ∧
      getTile s.board row (col + 1) = "--" ∧ getTile s.board row (col + 2) = "--") ∨
    (((s.white_to_move = true ∧ s.current_castling_rights.wqs = true) ∨
      (¬s.white_to_move = true ∧ s.current_castling_rights.bqs = true)) ∧
      x = Move.init (row, col) (row, col - 2) s.board false true ∧
      getTile s.board row (col - 1) = "--" ∧ getTile s.board row (col - 2) = "--" ∧
      getTile s.board row (col - 3) = "--") := by
  unfold get_castle_moves at hmem
  rcases hatt : tile_under_attack s pins row col with ⟨p0, att⟩
  rw [hatt] at hmem
  dsimp only at hmem
  split at hmem
  · exact Or.inl hmem
  · rcases hks : (if (s.white_to_move = true ∧ s.current_castling_rights.wks = true) ∨
        (¬s.white_to_move = true ∧ s.current_castling_rights.bks = true) then
        get_king_side_castle_moves s p0 row col moves else (p0, moves)) with ⟨p1, m1⟩
    rw [hks] at hmem
    dsimp only at hmem
    have hm1 : ∀ k2 x2, (k2, x2) ∈ m1 → (k2, x2) ∈ moves ∨
        (((s.white_to_move = true ∧ s.current_castling_rights.wks = true) ∨
          (¬s.white_to_move = true ∧ s.current_castling_rights.bks = true)) ∧
          x2 = Move.init (row, col) (row, col + 2) s.board false true ∧
          getTile s.board row (col + 1) = "--" ∧ getTile s.board row (col + 2) = "--") := by
      intro k2 x2 h2
      by_cases hguard : (s.white_to_move = true ∧ s.current_castling_rights.wks = true) ∨
          (¬s.white_to_move = true ∧ s.current_castling_rights.bks = true)
      · rw [if_pos hguard] at hks
        have hsnd : (get_king_side_castle_moves s p0 row col moves).2 = m1 :=
          congrArg Prod.snd hks
        rw [← hsnd] at h2
        rcases get_king_side_castle_moves_mem s p0 row col moves h2 with h3 | h3
        · exact Or.inl h3
        · exact Or.inr ⟨hguard, h3⟩
      · rw [if_neg hguard] at hks
        injection hks with hp hm
        exact Or.inl (hm ▸ h2)
    split at hmem
    · rename_i hqsg
      rcases get_queen_side_castle_moves_mem s p1 row col m1 hmem with h1 | h1
      · rcases hm1 k x h1 with h2 | h2
        · exact Or.inl h2
        · exact Or.inr (Or.inl h2)
      · exact Or.inr (Or.inr ⟨hqsg, h1⟩)
    · rcases hm1 k x hmem with h2 | h2
      · exact Or.inl h2
      · exact Or.inr (Or.inl h2)

theorem tile_wp {t : String} (ht : t ∈ pieceStrings) (hc : colorOf t = 'w')
    (hk : kindOf t = 'p') : t = "wp" := by
  simp only [pieceStrings, List.mem_cons, List.mem_singleton, List.not_mem_nil,
    or_false] at ht
  rcases ht with rfl | rfl | rfl | rfl | rfl | rfl | rfl | rfl | rfl | rfl | rfl | rfl | rfl <;>
    first
      | rfl
      | exact absurd hc (by decide)
      | exact absurd hk (by decide)

theorem tile_bp {t : String} (ht : t ∈ pieceStrings) (hc : colorOf t = 'b')
    (hk : kindOf t = 'p') : t = "bp" := by
  simp only [pieceStrings, List.mem_cons, List.mem_singleton, List.not_mem_nil,
    or_false] at ht
  rcases ht with rfl | rfl | rfl | rfl | rfl | rfl | rfl | rfl | rfl | rfl | rfl | rfl | rfl <;>
    first
      | rfl
      | exact absurd hc (by decide)
      | exact absurd hk (by decide)

/-- Coherence of a plain (non-castle, non-en-passant) generated move. -/
theorem moveOK_init_plain (p : Position) (wf : WellFormedPos p) (row col er ec : Int)
    (hs : onBoard row col) (he : onBoard er ec) (hne : ¬(er = row ∧ ec = col))
    (hds : kindOf (getTile p.board row col) = 'p' → (er - row).natAbs = 2 →
      ec = col ∧ getTile p.board ((row + er) / 2) ec = "--") :
    MoveOK p (Move.init (row, col) (er, ec) p.board false false) := by
  refine ⟨hs, he, ?_, rfl, fun _ => rfl, ?_, ?_, ?_, ?_, ?_⟩
  · intro hc
    exact hne ⟨hc.1.symm, hc.2.symm⟩
  · intro hwk
    exact wf.kingsW row col hs hwk
  · intro hbk
    exact wf.kingsB row col hs hbk
  · intro hfalse
    exact absurd hfalse Bool.false_ne_true
  · intro h1 h2
    exact ⟨rfl, rfl, (hds h1 h2).1, (hds h1 h2).2⟩
  · intro hfalse
    exact absurd hfalse Bool.false_ne_true

/-- Coherence of a generated en-passant capture. -/
theorem moveOK_init_ep (p : Position) (wf : WellFormedPos p) (row col lr : Int)
    (hlr : lr = -1 ∨ lr = 1) (hs : onBoard row col)
    (hpm : getTile p.board row col = (if p.white_to_move then "wp" else "bp"))
    (hep : ((row + (if p.white_to_move then (-1 : Int) else 1)), col + lr) =
      p.en_passant_possible) :
    MoveOK p (Move.init (row, col)
      (row + (if p.white_to_move then (-1 : Int) else 1), col + lr) p.board true false) := by
  obtain ⟨hs1, hs2, hs3, hs4⟩ := hs
  rcases wf.epTarget with hsent | ⟨c, hc0, hc8, hcase⟩
  · exfalso
    rw [hsent, Prod.ext_iff] at hep
    by_cases hwtm : p.white_to_move = true
    · simp only [hwtm, if_true] at hpm hep
      have hrow : row = 0 := by
        have h9 := hep.1
        unfold NO_VALUE at h9
        omega
      rw [hrow] at hpm
      exact (wf.pawnRows col hs3 hs4).1 hpm
    · simp only [hwtm, if_false, Bool.false_eq_true] at hep
      have h9 := hep.1
      unfold NO_VALUE at h9
      omega
  · rcases hcase with ⟨hw, hepv, hemp, hcap⟩ | ⟨hw, hepv, hemp, hcap⟩
    · -- black to move, target (5, c), white pawn on (4, c)
      simp only [hw, if_false, Bool.false_eq_true] at hpm hep ⊢
      rw [hepv, Prod.ext_iff] at hep
      have h1 : row + 1 = 5 := hep.1
      have h2 : col + lr = c := hep.2
      refine ⟨⟨hs1, hs2, hs3, hs4⟩,
        show onBoard (row + 1) (col + lr) from ⟨by omega, by omega, by omega, by omega⟩,
        ?_, rfl, ?_, ?_, ?_, ?_, ?_, ?_⟩
      · intro hcon
        have h9 : row = row + 1 := hcon.1
        omega
      · intro hfalse
        simp [Move.init] at hfalse
      · intro hwk
        exact absurd (hpm.symm.trans hwk) (by decide)
      · intro hbk
        exact absurd (hpm.symm.trans hbk) (by decide)
      · intro _
        refine ⟨rfl, ?_, ?_, ?_, ?_, ?_⟩
        · rw [hepv, Prod.ext_iff]
          exact ⟨h1, h2⟩
        · exact (show ((row + 1) - row).natAbs = 1 from by omega)
        · exact (show ¬ col = col + lr from by rcases hlr with rfl | rfl <;> omega)
        · show getTile p.board (row + 1) (col + lr) = "--"
          rw [h2, show row + 1 = 5 from h1]
          exact hemp
        · show getTile p.board row (col + lr) =
            (if getTile p.board row col = "bp" then "wp" else "bp")
          rw [hpm, if_pos rfl, h2, show row = 4 from by omega]
          exact hcap
      · intro _ habs
        have h9 : ((row + 1) - row).natAbs = 2 := habs
        omega
      · intro hfalse
        exact absurd hfalse Bool.false_ne_true
    · -- white to move, target (2, c), black pawn on (3, c)
      simp only [hw, if_true] at hpm hep ⊢
      rw [hepv, Prod.ext_iff] at hep
      have h1 : row + -1 = 2 := hep.1
      have h2 : col + lr = c := hep.2
      refine ⟨⟨hs1, hs2, hs3, hs4⟩,
        show onBoard (row + -1) (col + lr) from ⟨by omega, by omega, by omega, by omega⟩,
        ?_, rfl, ?_, ?_, ?_, ?_, ?_, ?_⟩
      · intro hcon
        have h9 : row = row + -1 := hcon.1
        omega
      · intro hfalse
        simp [Move.init] at hfalse
      · intro hwk
        exact absurd (hpm.symm.trans hwk) (by decide)
      · intro hbk
        exact absurd (hpm.symm.trans hbk) (by decide)
      · intro _
        refine ⟨rfl, ?_, ?_, ?_, ?_, ?_⟩
        · rw [hepv, Prod.ext_iff]
          exact ⟨h1, h2⟩
        · exact (show ((row + -1) - row).natAbs = 1 from by omega)
        · exact (show ¬ col = col + lr from by rcases hlr with rfl | rfl <;> omega)
        · show getTile p.board (row + -1) (col + lr) = "--"
          rw [h2, show row + -1 = 2 from h1]
          exact hemp
        · show getTile p.board row (col + lr) =
            (if getTile p.board row col = "bp" then "wp" else "bp")
          rw [hpm, if_neg (by decide), h2, show row = 3 from by omega]
          exact hcap
      · intro _ habs
        have h9 : ((row + -1) - row).natAbs = 2 := habs
        omega
      · intro hfalse
        exact absurd hfalse Bool.false_ne_true

/-- Coherence of a generated king-side castle. -/
theorem moveOK_init_castle_ks (p : Position) (wf : WellFormedPos p) (r c : Int)
    (hob : onBoard r c) (h4 : c = 4)
    (he1 : getTile p.board r (c + 1) = "--") (he2 : getTile p.board r (c + 2) = "--") :
    MoveOK p (Move.init (r, c) (r, c + 2) p.board false true) := by
  subst h4
  obtain ⟨h1, h2, h3, h4'⟩ := hob
  refine ⟨⟨h1, h2, h3, h4'⟩,
    show onBoard r (4 + 2) from ⟨h1, h2, by omega, by omega⟩, ?_, rfl, fun _ => rfl,
    ?_, ?_, ?_, ?_, ?_⟩
  · intro hcon
    have h9 : (4 : Int) = 4 + 2 := hcon.2
    omega
  · intro hwk
    exact wf.kingsW r 4 ⟨h1, h2, h3, h4'⟩ hwk
  · intro hbk
    exact wf.kingsB r 4 ⟨h1, h2, h3, h4'⟩ hbk
  · intro hfalse
    exact absurd hfalse Bool.false_ne_true
  · intro _ habs
    have h9 : ((r : Int) - r).natAbs = 2 := habs
    omega
  · intro _
    refine ⟨rfl, rfl, rfl, Or.inl ⟨show (4 : Int) + 2 = 6 from by norm_num, ?_, ?_⟩⟩
    · show getTile p.board r 5 = "--"
      rw [show (5 : Int) = 4 + 1 from by norm_num]
      exact he1
    · show getTile p.board r 6 = "--"
      rw [show (6 : Int) = 4 + 2 from by norm_num]
      exact he2

/-- Coherence of a generated queen-side castle. -/
theorem moveOK_init_castle_qs (p : Position) (wf : WellFormedPos p) (r c : Int)
    (hob : onBoard r c) (h4 : c = 4)
    (he1 : getTile p.board r (c - 1) = "--") (he2 : getTile p.board r (c - 2) = "--")
    (he3 : getTile p.board r (c - 3) = "--") :
    MoveOK p (Move.init (r, c) (r, c - 2) p.board false true) := by
  subst h4
  obtain ⟨h1, h2, h3, h4'⟩ := hob
  refine ⟨⟨h1, h2, h3, h4'⟩,
    show onBoard r (4 - 2) from ⟨h1, h2, by omega, by omega⟩, ?_, rfl, fun _ => rfl,
    ?_, ?_, ?_, ?_, ?_⟩
  · intro hcon
    have h9 : (4 : Int) = 4 - 2 := hcon.2
    omega
  · intro hwk
    exact wf.kingsW r 4 ⟨h1, h2, h3, h4'⟩ hwk
  · intro hbk
    exact wf.kingsB r 4 ⟨h1, h2, h3, h4'⟩ hbk
  · intro hfalse
    exact absurd hfalse Bool.false_ne_true
  · intro _ habs
    have h9 : ((r : Int) - r).natAbs = 2 := habs
    omega
  · intro _
    refine ⟨rfl, rfl, rfl, Or.inr ⟨show (4 : Int) - 2 = 2 from by norm_num, ?_, ?_, ?_⟩⟩
    · show getTile p.board r 1 = "--"
      rw [show (1 : Int) = 4 - 3 from by norm_num]
      exact he3
    · show getTile p.board r 2 = "--"
      rw [show (2 : Int) = 4 - 2 from by norm_num]
      exact he2
    · show getTile p.board r 3 = "--"
      rw [show (3 : Int) = 4 - 1 from by norm_num]
      exact he1

/-- Every pseudo-legal move produced by `__get_all_possible_moves` is
coherent with the position it was generated from. -/
theorem get_all_possible_moves_ok (p : Position) (wf : WellFormedPos p)
    (pins : List PinRec) {k : Int} {x : Move}
    (h : (k, x) ∈ (get_all_possible_moves p pins).2) : MoveOK p x := by
  have hsh := wf.shape
  refine ((foldl_mem_proj Prod.snd (MoveOK p) _ _ (pins, []) ?_ k x h).resolve_left
    (List.not_mem_nil _))
  intro b row hrow k2 x2 hm
  have hrow8 : 0 ≤ row ∧ row < 8 := by
    have h9 := mem_pyRange hrow
    rwa [boardShape_len_int hsh] at h9
  refine foldl_mem_proj Prod.snd (MoveOK p) _ _ b ?_ k2 x2 hm
  intro b2 col hcol k3 x3 hm3
  have hcol8 : 0 ≤ col ∧ col < 8 := by
    have h9 := mem_pyRange hcol
    rw [boardShape_row_length hsh hrow8.1 hrow8.2] at h9
    exact ⟨h9.1, by exact_mod_cast h9.2⟩
  have hob : onBoard row col := ⟨hrow8.1, hrow8.2, hcol8.1, hcol8.2⟩
  obtain ⟨p3, m3⟩ := b2
  dsimp only at hm3
  split at hm3
  case isFalse hnt => exact Or.inl hm3
  case isTrue hturn =>
  split at hm3
  case isTrue hkp =>
      rcases hturn with ⟨hcw, hwtm⟩ | ⟨hcb, hwtm⟩
      · have hPWN : getTile p.board row col = "wp" :=
          tile_wp (wf.tiles row col hob) hcw hkp
        have hedge : 1 ≤ row := by
          by_contra h9
          have h0 : row = 0 := by omega
          rw [h0] at hPWN
          exact (wf.pawnRows col hcol8.1 hcol8.2).1 hPWN
        have hed2 := hedge
        rcases get_pawn_moves_mem_w p hsh hwtm p3 row col m3 hm3 with
          h1 | ⟨hx, hemp⟩ | ⟨hx, hr6, he1, he2⟩ | ⟨lr, hlr, hx, hb0, hb8⟩ | ⟨lr, hlr, hx, hep⟩
        · exact Or.inl h1
        · subst hx
          exact Or.inr (moveOK_init_plain p wf row col (row + -1) col hob
            ⟨by omega, by omega, hcol8.1, hcol8.2⟩ (by omega)
            (fun _ habs => absurd habs (by omega)))
        · subst hx
          refine Or.inr (moveOK_init_plain p wf row col (row + 2 * -1) col hob
            ⟨by omega, by omega, hcol8.1, hcol8.2⟩ (by omega) ?_)
          intro _ _
          refine ⟨rfl, ?_⟩
          rw [show (row + (row + 2 * -1)) / 2 = row + -1 from by omega]
          exact he1
        · subst hx
          exact Or.inr (moveOK_init_plain p wf row col (row + -1) (col + lr) hob
            ⟨by omega, by omega, hb0, hb8⟩ (by omega)
            (fun _ habs => absurd habs (by omega)))
        · subst hx
          have h9 := moveOK_init_ep p wf row col lr hlr hob
            (by simp only [hwtm, if_true, if_false, Bool.false_eq_true]; exact hPWN)
            (by simp only [hwtm, if_true, if_false, Bool.false_eq_true]; exact hep)
          simp only [hwtm, if_true, if_false, Bool.false_eq_true] at h9
          exact Or.inr h9
      · have hPWN : getTile p.board row col = "bp" :=
          tile_bp (wf.tiles row col hob) hcb hkp
        have hedge : row ≤ 6 := by
          by_contra h9
          have h0 : row = 7 := by omega
          rw [h0] at hPWN
          exact (wf.pawnRows col hcol8.1 hcol8.2).2 hPWN
        have hwf : p.white_to_move = false := by
          cases hb9 : p.white_to_move
          · rfl
          · exact absurd hb9 hwtm
        rcases get_pawn_moves_mem_b p hsh hwf p3 row col m3 hm3 with
          h1 | ⟨hx, hemp⟩ | ⟨hx, hr6, he1, he2⟩ | ⟨lr, hlr, hx, hb0, hb8⟩ | ⟨lr, hlr, hx, hep⟩
        · exact Or.inl h1
        · subst hx
          exact Or.inr (moveOK_init_plain p wf row col (row + 1) col hob
            ⟨by omega, by omega, hcol8.1, hcol8.2⟩ (by omega)
            (fun _ habs => absurd habs (by omega)))
        · subst hx
          refine Or.inr (moveOK_init_plain p wf row col (row + 2 * 1) col hob
            ⟨by omega, by omega, hcol8.1, hcol8.2⟩ (by omega) ?_)
          intro _ _
          refine ⟨rfl, ?_⟩
          rw [show (row + (row + 2 * 1)) / 2 = row + 1 from by omega]
          exact he1
        · subst hx
          exact Or.inr (moveOK_init_plain p wf row col (row + 1) (col + lr) hob
            ⟨by omega, by omega, hb0, hb8⟩ (by omega)
            (fun _ habs => absurd habs (by omega)))
        · subst hx
          have h9 := moveOK_init_ep p wf row col lr hlr hob
            (by simp only [hwf, if_true, if_false, Bool.false_eq_true]; exact hPWN)
            (by simp only [hwf, if_true, if_false, Bool.false_eq_true]; exact hep)
          simp only [hwf, if_true, if_false, Bool.false_eq_true] at h9
          exact Or.inr h9
  case isFalse hnp =>
  split at hm3
  case isTrue hkR =>
      rcases get_moves_from_directions_mem p hsh p3 row col m3 _ hm3 with
        h1 | ⟨d, hd, i, hi1, hob2, hx⟩
      · exact Or.inl h1
      ·
        subst hx
        simp only [List.mem_cons, List.mem_singleton, List.not_mem_nil, or_false] at hd
        have hd0 : ¬(d.1 = 0 ∧ d.2 = 0) := by
          rcases hd with rfl | rfl | rfl | rfl <;> decide
        refine Or.inr (moveOK_init_plain p wf row col (row + d.1 * i) (col + d.2 * i)
          hob hob2 ?_ (fun hkind _ => absurd (hkR.symm.trans hkind) (by decide)))
        intro hcon
        have h1 : d.1 * i = 0 := by linarith [hcon.1]
        have h2 : d.2 * i = 0 := by linarith [hcon.2]
        have hi0 : ¬ i = 0 := by omega
        refine hd0 ⟨?_, ?_⟩
        · rcases mul_eq_zero.mp h1 with h9 | h9
          · exact h9
          · exact absurd h9 hi0
        · rcases mul_eq_zero.mp h2 with h9 | h9
          · exact h9
          · exact absurd h9 hi0
  case isFalse hnR =>
  split at hm3
  case isTrue hkN =>
      rcases get_moves_from_tiles_mem p hsh p3 row col m3 _ hm3 with h1 | ⟨t, ht, hob2, hx⟩
      · exact Or.inl h1
      · subst hx
        simp only [List.mem_cons, List.mem_singleton, List.not_mem_nil, or_false] at ht
        refine Or.inr (moveOK_init_plain p wf row col t.1 t.2 hob hob2 ?_
          (fun hkind _ => absurd (hkN.symm.trans hkind) (by decide)))
        intro hcon
        rcases ht with rfl | rfl | rfl | rfl | rfl | rfl | rfl | rfl <;>
          (obtain ⟨a, b9⟩ := hcon; dsimp only at a b9; omega)
  case isFalse hnN =>
  split at hm3
  case isTrue hkB =>
      rcases get_moves_from_directions_mem p hsh p3 row col m3 _ hm3 with
        h1 | ⟨d, hd, i, hi1, hob2, hx⟩
      · exact Or.inl h1
      ·
        subst hx
        simp only [List.mem_cons, List.mem_singleton, List.not_mem_nil, or_false] at hd
        have hd0 : ¬(d.1 = 0 ∧ d.2 = 0) := by
          rcases hd with rfl | rfl | rfl | rfl <;> decide
        refine Or.inr (moveOK_init_plain p wf row col (row + d.1 * i) (col + d.2 * i)
          hob hob2 ?_ (fun hkind _ => absurd (hkB.symm.trans hkind) (by decide)))
        intro hcon
        have h1 : d.1 * i = 0 := by linarith [hcon.1]
        have h2 : d.2 * i = 0 := by linarith [hcon.2]
        have hi0 : ¬ i = 0 := by omega
        refine hd0 ⟨?_, ?_⟩
        · rcases mul_eq_zero.mp h1 with h9 | h9
          · exact h9
          · exact absurd h9 hi0
        · rcases mul_eq_zero.mp h2 with h9 | h9
          · exact h9
          · exact absurd h9 hi0
  case isFalse hnB =>
  split at hm3
  case isTrue hkQ =>
      unfold get_queen_moves at hm3
      rcases hq : get_rook_moves p p3 row col m3 with ⟨pr, mr⟩
      rw [hq] at hm3
      dsimp only at hm3
      rcases get_moves_from_directions_mem p hsh pr row col mr _ hm3 with
        h1 | ⟨d, hd, i, hi1, hob2, hx⟩
      · have hmr : (get_rook_moves p p3 row col m3).2 = mr := congrArg Prod.snd hq
        rw [← hmr] at h1
        rcases get_moves_from_directions_mem p hsh p3 row col m3 _ h1 with
          h2 | ⟨d, hd, i, hi1, hob2, hx⟩
        · exact Or.inl h2
        ·
          subst hx
          simp only [List.mem_cons, List.mem_singleton, List.not_mem_nil, or_false] at hd
          have hd0 : ¬(d.1 = 0 ∧ d.2 = 0) := by
            rcases hd with rfl | rfl | rfl | rfl <;> decide
          refine Or.inr (moveOK_init_plain p wf row col (row + d.1 * i) (col + d.2 * i)
            hob hob2 ?_ (fun hkind _ => absurd (hkQ.symm.trans hkind) (by decide)))
          intro hcon
          have h1 : d.1 * i = 0 := by linarith [hcon.1]
          have h2 : d.2 * i = 0 := by linarith [hcon.2]
          have hi0 : ¬ i = 0 := by omega
          refine hd0 ⟨?_, ?_⟩
          · rcases mul_eq_zero.mp h1 with h9 | h9
            · exact h9
            · exact absurd h9 hi0
          · rcases mul_eq_zero.mp h2 with h9 | h9
            · exact h9
            · exact absurd h9 hi0
      ·
        subst hx
        simp only [List.mem_cons, List.mem_singleton, List.not_mem_nil, or_false] at hd
        have hd0 : ¬(d.1 = 0 ∧ d.2 = 0) := by
          rcases hd with rfl | rfl | rfl | rfl <;> decide
        refine Or.inr (moveOK_init_plain p wf row col (row + d.1 * i) (col + d.2 * i)
          hob hob2 ?_ (fun hkind _ => absurd (hkQ.symm.trans hkind) (by decide)))
        intro hcon
        have h1 : d.1 * i = 0 := by linarith [hcon.1]
        have h2 : d.2 * i = 0 := by linarith [hcon.2]
        have hi0 : ¬ i = 0 := by omega
        refine hd0 ⟨?_, ?_⟩
        · rcases mul_eq_zero.mp h1 with h9 | h9
          · exact h9
          · exact absurd h9 hi0
        · rcases mul_eq_zero.mp h2 with h9 | h9
          · exact h9
          · exact absurd h9 hi0
  case isFalse hnQ =>
  split at hm3
  case isTrue hkK =>
      rcases get_king_moves_mem p hsh row col m3 hm3 with h1 | ⟨t, ht, hob2, hx⟩
      · exact Or.inl h1
      · subst hx
        simp only [List.mem_cons, List.mem_singleton, List.not_mem_nil, or_false] at ht
        refine Or.inr (moveOK_init_plain p wf row col t.1 t.2 hob hob2 ?_ ?_)
        · intro hcon
          rcases ht with rfl | rfl | rfl | rfl | rfl | rfl | rfl | rfl <;>
            (obtain ⟨a, b9⟩ := hcon; dsimp only at a b9; omega)
        · intro _ habs
          exfalso
          rcases ht with rfl | rfl | rfl | rfl | rfl | rfl | rfl | rfl <;>
            (dsimp only at habs; omega)
  case isFalse hnK => exact Or.inl hm3

/-- Every move returned by a full generation pass over a well-formed
position is coherent with that position. -/
theorem generate_moves_pos_ok (p : Position) (wf : WellFormedPos p) {k : Int} {x : Move}
    (h : (k, x) ∈ (generate_moves_pos p).moves) : MoveOK p x := by
  have hsh := wf.shape
  unfold generate_moves_pos at h
  dsimp only at h
  split at h
  case isTrue hwtm =>

    rcases get_castle_moves_mem p _ _ _ _ h with
      h1 | ⟨hguard, hx, he1, he2⟩ | ⟨hguard, hx, he1, he2, he3⟩
    · split at h1
      · split at h1
        · have h2 := (List.mem_filter.mp h1).1
          exact get_all_possible_moves_ok p wf _ h2
        · simp only [hwtm, if_true, if_false, Bool.false_eq_true] at h1
          rcases get_king_moves_mem p hsh _ _ [] h1 with h2 | ⟨t, ht, hob2, hx⟩
          · exact absurd h2 (List.not_mem_nil _)
          · subst hx
            simp only [List.mem_cons, List.mem_singleton, List.not_mem_nil, or_false] at ht
            refine moveOK_init_plain p wf p.white_king_location.1 p.white_king_location.2
              t.1 t.2 wf.wkRange hob2 ?_ ?_
            · intro hcon
              rcases ht with rfl | rfl | rfl | rfl | rfl | rfl | rfl | rfl <;>
                (obtain ⟨a, b9⟩ := hcon; dsimp only at a b9; omega)
            · intro _ habs
              exfalso
              rcases ht with rfl | rfl | rfl | rfl | rfl | rfl | rfl | rfl <;>
                (dsimp only at habs; omega)
      · exact get_all_possible_moves_ok p wf _ h1
    · rcases hguard with ⟨hw9, hks9⟩ | ⟨hw9, hks9⟩
      · have h4 : p.white_king_location.2 = 4 := by
          rw [wf.castleW (Or.inl hks9)]
        subst hx
        exact moveOK_init_castle_ks p wf p.white_king_location.1 p.white_king_location.2
          wf.wkRange h4 he1 he2
      · exact absurd hwtm hw9
    · rcases hguard with ⟨hw9, hqs9⟩ | ⟨hw9, hqs9⟩
      · have h4 : p.white_king_location.2 = 4 := by
          rw [wf.castleW (Or.inr hqs9)]
        subst hx
        exact moveOK_init_castle_qs p wf p.white_king_location.1 p.white_king_location.2
          wf.wkRange h4 he1 he2 he3
      · exact absurd hwtm hw9
  case isFalse hwtm =>
    have hwf : p.white_to_move = false := by
      cases hb9 : p.white_to_move
      · rfl
      · exact absurd hb9 hwtm

    rcases get_castle_moves_mem p _ _ _ _ h with
      h1 | ⟨hguard, hx, he1, he2⟩ | ⟨hguard, hx, he1, he2, he3⟩
    · split at h1
      · split at h1
        · have h2 := (List.mem_filter.mp h1).1
          exact get_all_possible_moves_ok p wf _ h2
        · simp only [hwf, if_true, if_false, Bool.false_eq_true] at h1
          rcases get_king_moves_mem p hsh _ _ [] h1 with h2 | ⟨t, ht, hob2, hx⟩
          · exact absurd h2 (List.not_mem_nil _)
          · subst hx
            simp only [List.mem_cons, List.mem_singleton, List.not_mem_nil, or_false] at ht
            refine moveOK_init_plain p wf p.black_king_location.1 p.black_king_location.2
              t.1 t.2 wf.bkRange hob2 ?_ ?_
            · intro hcon
              rcases ht with rfl | rfl | rfl | rfl | rfl | rfl | rfl | rfl <;>
                (obtain ⟨a, b9⟩ := hcon; dsimp only at a b9; omega)
            · intro _ habs
              exfalso
              rcases ht with rfl | rfl | rfl | rfl | rfl | rfl | rfl | rfl <;>
                (dsimp only at habs; omega)
      · exact get_all_possible_moves_ok p wf _ h1
    · rcases hguard with ⟨hw9, hks9⟩ | ⟨hw9, hks9⟩
      · exact absurd hw9 hwtm
      · have h4 : p.black_king_location.2 = 4 := by
          rw [wf.castleB (Or.inl hks9)]
        subst hx
        exact moveOK_init_castle_ks p wf p.black_king_location.1 p.black_king_location.2
          wf.bkRange h4 he1 he2
    · rcases hguard with ⟨hw9, hqs9⟩ | ⟨hw9, hqs9⟩
      · exact absurd hw9 hwtm
      · have h4 : p.black_king_location.2 = 4 := by
          rw [wf.castleB (Or.inr hqs9)]
        subst hx
        exact moveOK_init_castle_qs p wf p.black_king_location.1 p.black_king_location.2
          wf.bkRange h4 he1 he2 he3

/-- Every move returned by `generate_valid_moves` is coherent with the
observable position of the state it was called on. -/
theorem generate_valid_moves_ok (s : GameState) (wf : WellFormedPos s.pos) {k : Int}
    {x : Move} (h : (k, x) ∈ (generate_valid_moves s).2) : MoveOK s.pos x :=
  generate_moves_pos_ok s.pos wf h

/-- The make/undo round trip, stated over the state the move is actually
applied to: every observable component except the en-passant target is
restored, and the target is restored exactly for an en-passant capture. -/
theorem make_undo_components (s2 : GameState) (m : Move) (hok : MoveOK s2.pos m)
    (hsh : BoardShape s2.board)
    (hlast2 : s2.castle_rights_log.getLast? = some s2.current_castling_rights) :
    (undo_move (make_move s2 m)).board = s2.board ∧
    (undo_move (make_move s2 m)).white_to_move = s2.white_to_move ∧
    (undo_move (make_move s2 m)).white_king_location = s2.white_king_location ∧
    (undo_move (make_move s2 m)).black_king_location = s2.black_king_location ∧
    (undo_move (make_move s2 m)).current_castling_rights = s2.current_castling_rights ∧
    (undo_move (make_move s2 m)).move_log = s2.move_log ∧
    (undo_move (make_move s2 m)).castle_rights_log = s2.castle_rights_log ∧
    (undo_move (make_move s2 m)).en_passant_possible =
      (if m.is_en_passant then s2.en_passant_possible else ((NO_VALUE : Int), NO_VALUE)) := by
  have hlog : (make_move s2 m).move_log.getLast? = some m := by
    show (s2.move_log ++ [m]).getLast? = some m
    rw [List.getLast?_concat]
  obtain ⟨hb, hwtm, hwk, hbk, hml, hcrl, hccr, hep⟩ :=
    undo_move_components (make_move s2 m) m hlog
  refine ⟨?_, ?_, ?_, ?_, ?_, ?_, ?_, ?_⟩
  · rw [hb]
    show undoBoard2 (undoBoard1 (makeBoard s2.board m) m) m = s2.board
    by_cases hcas : m.is_castle = true
    · exact undo_make_board_castle s2.pos m hsh hok hcas
    · have hcf : m.is_castle = false := by
        cases h9 : m.is_castle
        · rfl
        · exact absurd h9 hcas
      by_cases hepb : m.is_en_passant = true
      · exact undo_make_board_ep s2.pos m hsh hok hepb
      · have hef : m.is_en_passant = false := by
          cases h9 : m.is_en_passant
          · rfl
          · exact absurd h9 hepb
        exact undo_make_board_plain s2.pos m hsh hok hcf hef
  · rw [hwtm]
    show (!(!s2.white_to_move)) = s2.white_to_move
    exact Bool.not_not _
  · rw [hwk]
    by_cases h9 : m.piece_moved = "wK"
    · rw [if_pos h9]
      exact hok.wkEq h9
    · rw [if_neg h9]
      show (if m.piece_moved = "wK" then (m.end_row, m.end_col)
        else s2.white_king_location) = s2.white_king_location
      rw [if_neg h9]
  · rw [hbk]
    by_cases h9 : m.piece_moved = "bK"
    · rw [if_pos h9]
      exact hok.bkEq h9
    · rw [if_neg h9]
      show (if m.piece_moved = "bK" then (m.end_row, m.end_col)
        else s2.black_king_location) = s2.black_king_location
      rw [if_neg h9]
  · rw [hccr]
    show ((s2.castle_rights_log ++
      [update_castle_rights s2.current_castling_rights m]).dropLast).getLast?.getD
        ⟨true, true, true, true⟩ = s2.current_castling_rights
    rw [List.dropLast_concat, hlast2]
    rfl
  · rw [hml]
    show (s2.move_log ++ [m]).dropLast = s2.move_log
    rw [List.dropLast_concat]
  · rw [hcrl]
    show (s2.castle_rights_log ++
      [update_castle_rights s2.current_castling_rights m]).dropLast = s2.castle_rights_log
    rw [List.dropLast_concat]
  · rw [hep]
    show (if kindOf m.piece_moved = 'p' ∧ (m.end_row - m.start_row).natAbs = 2
        then ((NO_VALUE : Int), (NO_VALUE : Int))
        else (if m.is_en_passant then (m.end_row, m.end_col) else makeEnPassant m)) =
      (if m.is_en_passant then s2.en_passant_possible else ((NO_VALUE : Int), NO_VALUE))
    by_cases hepb : m.is_en_passant = true
    · obtain ⟨hc1, hc2, hc3, hc4, hc5, hc6⟩ := hok.epOk hepb
      rw [if_neg (by intro h9; omega : ¬(kindOf m.piece_moved = 'p' ∧
        (m.end_row - m.start_row).natAbs = 2))]
      rw [if_pos hepb, if_pos hepb]
      exact hc2
    · have hef : m.is_en_passant = false := by
        cases h9 : m.is_en_passant
        · rfl
        · exact absurd h9 hepb
      rw [hef]
      simp only [Bool.false_eq_true, if_false]
      unfold makeEnPassant
      split
      · rfl
      · rfl

/-- C1 (amended and corrected): for a well-formed game state `s` and any
move `m` produced by `generate_valid_moves`, `make_move` followed by
`undo_move` restores the board, the side to move, both king locations, the
castling rights, the move log and the castling-rights log; the en-passant
target is restored exactly when `m` is an en-passant capture and is
otherwise cleared to the `(NO_VALUE, NO_VALUE)` sentinel. -/
theorem make_undo_round_trip (s : GameState) (k : Int) (m : Move)
    (hwf : WellFormed s) (hm : (k, m) ∈ (generate_valid_moves s).2) :
    (undo_move (make_move (generate_valid_moves s).1 m)).board = s.board ∧
    (undo_move (make_move (generate_valid_moves s).1 m)).white_to_move = s.white_to_move ∧
    (undo_move (make_move (generate_valid_moves s).1 m)).white_king_location = s.white_king_location ∧
    (undo_move (make_move (generate_valid_moves s).1 m)).black_king_location = s.black_king_location ∧
    (undo_move (make_move (generate_valid_moves s).1 m)).current_castling_rights = s.current_castling_rights ∧
    (undo_move (make_move (generate_valid_moves s).1 m)).move_log = s.move_log ∧
    (undo_move (make_move (generate_valid_moves s).1 m)).castle_rights_log = s.castle_rights_log ∧
    (undo_move (make_move (generate_valid_moves s).1 m)).en_passant_possible =
      (if m.is_en_passant then s.en_passant_possible else ((NO_VALUE : Int), NO_VALUE)) := by
  obtain ⟨wfp, hlast⟩ := hwf
  exact make_undo_components (generate_valid_moves s).1 m
    (generate_valid_moves_ok s wfp hm) wfp.shape hlast

-- SLOW-BEGIN
/-- The amended round trip checked at a concrete input: the opening pawn
double step from the initial position. -/
theorem make_undo_round_trip_witness :
    WellFormed initialState ∧
    ((6444 : Int), Move.init (6, 4) (4, 4) initialState.board false false) ∈ (generate_valid_moves initialState).2 ∧
    ((undo_move (make_move (generate_valid_moves initialState).1
        (Move.init (6, 4) (4, 4) initialState.board false false))).board = initialState.board ∧
      (undo_move (make_move (generate_valid_moves initialState).1
        (Move.init (6, 4) (4, 4) initialState.board false false))).white_to_move = initialState.white_to_move ∧
      (undo_move (make_move (generate_valid_moves initialState).1
        (Move.init (6, 4) (4, 4) initialState.board false false))).white_king_location = initialState.white_king_location ∧
      (undo_move (make_move (generate_valid_moves initialState).1
        (Move.init (6, 4) (4, 4) initialState.board false false))).black_king_location = initialState.black_king_location ∧
      (undo_move (make_move (generate_valid_moves initialState).1
        (Move.init (6, 4) (4, 4) initialState.board false false))).current_castling_rights = initialState.current_castling_rights ∧
      (undo_move (make_move (generate_valid_moves initialState).1
        (Move.init (6, 4) (4, 4) initialState.board false false))).move_log = initialState.move_log ∧
      (undo_move (make_move (generate_valid_moves initialState).1
        (Move.init (6, 4) (4, 4) initialState.board false false))).castle_rights_log = initialState.castle_rights_log ∧
      (undo_move (make_move (generate_valid_moves initialState).1
        (Move.init (6, 4) (4, 4) initialState.board false false))).en_passant_possible =
        (if (Move.init (6, 4) (4, 4) initialState.board false false).is_en_passant then initialState.en_passant_possible else ((NO_VALUE : Int), NO_VALUE))) :=
  ⟨wellFormed_initial, by decide,
   make_undo_round_trip initialState 6444 (Move.init (6, 4) (4, 4) initialState.board false false) wellFormed_initial (by decide)⟩
-- SLOW-END

end PyChess
